import Mathlib

/-!
# Verification of the rsvc server-version checker core

A shallow embedding of `src/rsvc.py` (a maubot plugin that probes the
server software versions of every server in a chat room, compares them
against a room-version compatibility table, and aggregates results).

Pure parts of the Python source (version parsing and comparison, the
compatibility table, error classification, aggregation, the re-probe
state transition) are translated into executable Lean definitions;
the asyncio batch runner and the per-room in-flight marker are modelled
as a fold over an arbitrary completion order and as a small-step
transition system respectively.

The Python code delegates version parsing/ordering to the `packaging`
and `semver` libraries; those are modelled here on the fragment the
plugin exercises (PEP 440 dotted releases with `rc` pre-releases, and
strict semantic versions), with comments marking each modelling choice.
-/

set_option linter.unusedVariables false
set_option linter.unnecessarySeqFocus false

namespace Rsvc

/-! ## Ordering infrastructure

Python's `packaging.version.Version` compares via a sort key and
`semver.VersionInfo` via a `compare` function; both induce a three-way
comparison.  We build all comparators from `Ordering`-valued functions
and track the laws needed for totality/transitivity proofs. -/

/-- A lawful three-way comparator: consistent under swapping, with a
transitive strict part and substitutive equality part. -/
structure LawfulCmp {α : Type _} (cmp : α → α → Ordering) : Prop where
  swap_eq : ∀ a b, cmp b a = (cmp a b).swap
  lt_trans : ∀ a b c, cmp a b = .lt → cmp b c = .lt → cmp a c = .lt
  eq_left : ∀ a b c, cmp a b = .eq → cmp a c = cmp b c

theorem LawfulCmp.eq_refl {α : Type _} {cmp : α → α → Ordering}
    (h : LawfulCmp cmp) (a : α) : cmp a a = .eq := by
  have hs := h.swap_eq a a
  cases hc : cmp a a
  · rw [hc] at hs; exact absurd hs (by decide)
  · rfl
  · rw [hc] at hs; exact absurd hs (by decide)

theorem LawfulCmp.eq_symm {α : Type _} {cmp : α → α → Ordering}
    (h : LawfulCmp cmp) {a b : α} (hab : cmp a b = .eq) : cmp b a = .eq := by
  rw [h.swap_eq a b, hab]; rfl

theorem LawfulCmp.eq_right {α : Type _} {cmp : α → α → Ordering}
    (h : LawfulCmp cmp) {a b : α} (hab : cmp a b = .eq) (c : α) :
    cmp c a = cmp c b := by
  rw [h.swap_eq a c, h.swap_eq b c, h.eq_left a b c hab]

theorem LawfulCmp.gt_iff {α : Type _} {cmp : α → α → Ordering}
    (h : LawfulCmp cmp) (a b : α) : cmp a b = .gt ↔ cmp b a = .lt := by
  constructor
  · intro hab; rw [h.swap_eq a b, hab]; rfl
  · intro hba; rw [h.swap_eq b a, hba]; rfl

theorem LawfulCmp.gt_trans {α : Type _} {cmp : α → α → Ordering}
    (h : LawfulCmp cmp) {a b c : α} (hab : cmp a b = .gt) (hbc : cmp b c = .gt) :
    cmp a c = .gt := by
  rw [h.gt_iff] at hab hbc ⊢
  exact h.lt_trans c b a hbc hab

/-- Three-way comparison on `Nat` (models Python `int` comparison). -/
def cmpNat (a b : Nat) : Ordering :=
  if a < b then .lt else if a = b then .eq else .gt

theorem cmpNat_lt_iff {a b : Nat} : cmpNat a b = .lt ↔ a < b := by
  unfold cmpNat; split_ifs <;> simp_all

theorem cmpNat_eq_iff {a b : Nat} : cmpNat a b = .eq ↔ a = b := by
  unfold cmpNat; split_ifs <;> simp_all <;> omega

theorem cmpNat_gt_iff {a b : Nat} : cmpNat a b = .gt ↔ b < a := by
  unfold cmpNat; split_ifs <;> simp_all <;> omega

theorem cmpNat_lawful : LawfulCmp cmpNat := by
  constructor
  · intro a b
    rcases Nat.lt_trichotomy a b with h | h | h
    · rw [cmpNat_lt_iff.2 h, cmpNat_gt_iff.2 h]; rfl
    · rw [cmpNat_eq_iff.2 h, cmpNat_eq_iff.2 h.symm]; rfl
    · rw [cmpNat_gt_iff.2 h, cmpNat_lt_iff.2 h]; rfl
  · intro a b c hab hbc
    rw [cmpNat_lt_iff] at *
    omega
  · intro a b c hab
    rw [cmpNat_eq_iff] at hab
    rw [hab]

/-- Lexicographic comparison of lists given an element comparator
(models Python tuple/list comparison). -/
def lexCompare {α : Type _} (cmp : α → α → Ordering) : List α → List α → Ordering
  | [], [] => .eq
  | [], _ :: _ => .lt
  | _ :: _, [] => .gt
  | a :: as, b :: bs =>
    match cmp a b with
    | .eq => lexCompare cmp as bs
    | o => o

theorem lexCompare_lawful {α : Type _} {cmp : α → α → Ordering}
    (h : LawfulCmp cmp) : LawfulCmp (lexCompare cmp) := by
  constructor
  · intro a b
    induction a generalizing b with
    | nil => cases b <;> rfl
    | cons x xs ih =>
      cases b with
      | nil => rfl
      | cons y ys =>
        cases hxy : cmp x y
        · have hyx : cmp y x = .gt := by rw [h.swap_eq x y, hxy]; rfl
          simp only [lexCompare, hxy, hyx]
          rfl
        · have hyx : cmp y x = .eq := by rw [h.swap_eq x y, hxy]; rfl
          simp only [lexCompare, hxy, hyx]
          exact ih ys
        · have hyx : cmp y x = .lt := by rw [h.swap_eq x y, hxy]; rfl
          simp only [lexCompare, hxy, hyx]
          rfl
  · intro a b c hab hbc
    induction a generalizing b c with
    | nil =>
      cases b with
      | nil => exact hbc
      | cons y ys =>
        cases c with
        | nil => simp [lexCompare] at hbc
        | cons z zs => rfl
    | cons x xs ih =>
      cases b with
      | nil => simp [lexCompare] at hab
      | cons y ys =>
        cases c with
        | nil => simp [lexCompare] at hbc
        | cons z zs =>
          simp only [lexCompare] at hab hbc ⊢
          cases hxy : cmp x y <;> rw [hxy] at hab
          · cases hyz : cmp y z <;> rw [hyz] at hbc
            · have hxz : cmp x z = .lt := h.lt_trans x y z hxy hyz
              simp [hxz]
            · have hxz : cmp x z = .lt := ((h.eq_right hyz x).symm.trans hxy)
              simp [hxz]
            · simp at hbc
          · cases hyz : cmp y z <;> rw [hyz] at hbc
            · have hxz : cmp x z = .lt := (h.eq_left x y z hxy).trans hyz
              simp [hxz]
            · have hxz : cmp x z = .eq := (h.eq_left x y z hxy).trans hyz
              simp only [hxz]
              simp at hab hbc
              exact ih ys zs hab hbc
            · simp at hbc
          · simp at hab
  · intro a b c hab
    induction a generalizing b c with
    | nil =>
      cases b with
      | nil => rfl
      | cons y ys => simp [lexCompare] at hab
    | cons x xs ih =>
      cases b with
      | nil => simp [lexCompare] at hab
      | cons y ys =>
        simp only [lexCompare] at hab
        cases hxy : cmp x y <;> rw [hxy] at hab
        · simp at hab
        · cases c with
          | nil => rfl
          | cons z zs =>
            simp only [lexCompare]
            simp at hab
            rw [h.eq_left x y z hxy]
            cases hyz : cmp y z
            · rfl
            · exact ih ys zs hab
            · rfl
        · simp at hab

theorem lexCompare_eq_iff {α : Type _} {cmp : α → α → Ordering}
    (hcmp : ∀ a b : α, cmp a b = .eq ↔ a = b) :
    ∀ l m : List α, lexCompare cmp l m = .eq ↔ l = m := by
  intro l
  induction l with
  | nil => intro m; cases m <;> simp [lexCompare]
  | cons x xs ih =>
    intro m
    cases m with
    | nil => simp [lexCompare]
    | cons y ys =>
      simp only [lexCompare]
      cases hxy : cmp x y
      · constructor
        · intro h'; simp at h'
        · intro h'
          cases h'
          rw [(hcmp x x).2 rfl] at hxy
          simp at hxy
      · have hx : x = y := (hcmp x y).1 hxy
        subst hx
        rw [ih ys]
        simp
      · constructor
        · intro h'; simp at h'
        · intro h'
          cases h'
          rw [(hcmp x x).2 rfl] at hxy
          simp at hxy

/-- Sequential composition of comparators (first significant wins);
models comparison of Python tuples of heterogeneous components. -/
def thenCmp {α : Type _} (c₁ c₂ : α → α → Ordering) (a b : α) : Ordering :=
  (c₁ a b).then (c₂ a b)

theorem thenCmp_lawful {α : Type _} {c₁ c₂ : α → α → Ordering}
    (h₁ : LawfulCmp c₁) (h₂ : LawfulCmp c₂) : LawfulCmp (thenCmp c₁ c₂) := by
  constructor
  · intro a b
    unfold thenCmp
    rw [h₁.swap_eq a b, h₂.swap_eq a b]
    cases c₁ a b <;> cases c₂ a b <;> rfl
  · intro a b c hab hbc
    unfold thenCmp at *
    cases h1ab : c₁ a b <;> rw [h1ab] at hab
    · cases h1bc : c₁ b c <;> rw [h1bc] at hbc
      · rw [h₁.lt_trans a b c h1ab h1bc]; rfl
      · rw [(h₁.eq_right h1bc a).symm.trans h1ab]; rfl
      · simp [Ordering.then] at hbc
    · cases h1bc : c₁ b c <;> rw [h1bc] at hbc
      · rw [(h₁.eq_left a b c h1ab).trans h1bc]; rfl
      · rw [(h₁.eq_left a b c h1ab).trans h1bc]
        simp [Ordering.then] at hab hbc ⊢
        exact h₂.lt_trans a b c hab hbc
      · simp [Ordering.then] at hbc
    · simp [Ordering.then] at hab
  · intro a b c hab
    unfold thenCmp at *
    cases h1ab : c₁ a b <;> rw [h1ab] at hab
    · simp [Ordering.then] at hab
    · simp [Ordering.then] at hab
      rw [h₁.eq_left a b c h1ab, h₂.eq_left a b c hab]
    · simp [Ordering.then] at hab

/-- Pull back a comparator along a projection. -/
def onCmp {α β : Type _} (f : α → β) (cmp : β → β → Ordering) (a b : α) : Ordering :=
  cmp (f a) (f b)

theorem onCmp_lawful {α β : Type _} {f : α → β} {cmp : β → β → Ordering}
    (h : LawfulCmp cmp) : LawfulCmp (onCmp f cmp) := by
  constructor
  · intro a b; exact h.swap_eq (f a) (f b)
  · intro a b c hab hbc; exact h.lt_trans (f a) (f b) (f c) hab hbc
  · intro a b c hab; exact h.eq_left (f a) (f b) (f c) hab

/-- Three-way comparison of characters by Unicode code point
(Python compares strings code point by code point). -/
def cmpChar (a b : Char) : Ordering := cmpNat a.toNat b.toNat

theorem cmpChar_lawful : LawfulCmp cmpChar :=
  onCmp_lawful cmpNat_lawful

theorem cmpChar_eq_iff {a b : Char} : cmpChar a b = .eq ↔ a = b := by
  unfold cmpChar
  rw [cmpNat_eq_iff]
  constructor
  · intro h
    apply Char.ext
    unfold Char.toNat at h
    exact UInt32.ext h
  · intro h; rw [h]

/-- Three-way comparison of strings, code point lexicographic
(models Python `str` comparison). -/
def cmpStr (a b : String) : Ordering := lexCompare cmpChar a.data b.data

theorem cmpStr_lawful : LawfulCmp cmpStr :=
  onCmp_lawful (lexCompare_lawful cmpChar_lawful)

theorem cmpStr_eq_iff {a b : String} : cmpStr a b = .eq ↔ a = b := by
  unfold cmpStr
  rw [lexCompare_eq_iff (fun _ _ => cmpChar_eq_iff)]
  constructor
  · intro h
    cases a
    cases b
    exact congrArg String.mk h
  · intro h; rw [h]

/-! ## String helpers

Executable models of the Python string operations the plugin uses
(`str.split` with a one-character separator, `str.lower` on ASCII,
`str.join`).  They are written by structural recursion on the character
list so that concrete witnesses evaluate inside the kernel. -/

/-- `l.split(sep)` for a one-character separator, Python semantics:
splitting the empty string yields one empty field, adjacent separators
yield empty fields. -/
def splitOnChar (sep : Char) : List Char → List (List Char)
  | [] => [[]]
  | c :: cs =>
    let r := splitOnChar sep cs
    if c == sep then [] :: r
    else
      match r with
      | [] => [[c]]
      | g :: gs => (c :: g) :: gs

/-- `s.split(sep)` on strings. -/
def strSplitChar (sep : Char) (s : String) : List String :=
  (splitOnChar sep s.data).map (fun cs => ⟨cs⟩)

/-- ASCII lower-casing of one character (the plugin lower-cases reported
software names, which are ASCII). -/
def lowerChar (c : Char) : Char :=
  match c with
  | 'A' => 'a' | 'B' => 'b' | 'C' => 'c' | 'D' => 'd' | 'E' => 'e'
  | 'F' => 'f' | 'G' => 'g' | 'H' => 'h' | 'I' => 'i' | 'J' => 'j'
  | 'K' => 'k' | 'L' => 'l' | 'M' => 'm' | 'N' => 'n' | 'O' => 'o'
  | 'P' => 'p' | 'Q' => 'q' | 'R' => 'r' | 'S' => 's' | 'T' => 't'
  | 'U' => 'u' | 'V' => 'v' | 'W' => 'w' | 'X' => 'x' | 'Y' => 'y'
  | 'Z' => 'z' | other => other

/-- `s.lower()` on ASCII strings. -/
def strLower (s : String) : String := ⟨s.data.map lowerChar⟩

/-- `sep.join(parts)`. -/
def joinSep (sep : String) : List String → String
  | [] => ""
  | [x] => x
  | x :: xs => x ++ sep ++ joinSep sep xs

/-! ## Version values

`rsvc.py` line 122: `VersionIdentifier = Union[str, packaging.version.Version,
semver.VersionInfo]`.  The two library types are modelled on the fragment
the plugin exercises. -/

/-- Model of `packaging.version.Version` restricted to the shapes the
plugin's table and probed Synapse versions use: a dotted numeric release
with an optional `rc` pre-release.  `packaging` compares via a sort key
whose release component has trailing zeros stripped and whose pre-release
component orders `rcN` strictly below the plain release. -/
structure PyVersion where
  release : List Nat
  rc : Option Nat
  deriving DecidableEq, Repr

/-- `packaging`'s `_cmpkey` drops trailing zeros from the release tuple
before comparing. -/
def stripZeros (l : List Nat) : List Nat :=
  (l.reverse.dropWhile (fun n => n == 0)).reverse

/-- Pre-release comparison: a final release compares above any `rc`,
and two `rc`s compare by their number. -/
def cmpRc : Option Nat → Option Nat → Ordering
  | none, none => .eq
  | none, some _ => .gt
  | some _, none => .lt
  | some n, some m => cmpNat n m

theorem cmpRc_lawful : LawfulCmp cmpRc := by
  constructor
  · intro a b
    cases a <;> cases b <;> simp [cmpRc] <;>
      first
      | rfl
      | exact cmpNat_lawful.swap_eq _ _
  · intro a b c hab hbc
    cases a <;> cases b <;> cases c <;> simp [cmpRc] at * <;>
      exact cmpNat_lawful.lt_trans _ _ _ hab hbc
  · intro a b c hab
    cases a <;> cases b <;> cases c <;> simp [cmpRc] at * <;>
      exact cmpNat_lawful.eq_left _ _ _ hab

/-- Model of `packaging.version.Version` comparison (key comparison:
stripped release tuple lexicographically, then the pre-release marker). -/
def pyCompare (a b : PyVersion) : Ordering :=
  (lexCompare cmpNat (stripZeros a.release) (stripZeros b.release)).then
    (cmpRc a.rc b.rc)

theorem pyCompare_lawful : LawfulCmp pyCompare :=
  thenCmp_lawful
    (onCmp_lawful (f := fun v : PyVersion => stripZeros v.release)
      (lexCompare_lawful cmpNat_lawful))
    (onCmp_lawful (f := fun v : PyVersion => v.rc) cmpRc_lawful)

/-- Model of `semver.VersionInfo`: strict semantic version
`major.minor.patch` with optional pre-release and build identifier
lists. -/
structure Semver where
  major : Nat
  minor : Nat
  patch : Nat
  prerelease : List String
  build : List String
  deriving DecidableEq, Repr

/-- Characters allowed in semver pre-release/build identifiers. -/
def isIdentChar (c : Char) : Bool := c.isDigit || c.isAlpha || c == '-'

/-- semver treats an identifier as numeric when it consists solely of
digits (Python `str.isdigit()` on the ASCII grammar). -/
def isNumericIdent (s : String) : Bool :=
  !s.data.isEmpty && s.data.all Char.isDigit

/-- Digits to the number they denote (base 10). -/
def digitsToNat (ds : List Char) : Nat :=
  ds.foldl (fun acc c => acc * 10 + (c.toNat - 48)) 0

/-- semver identifier precedence: numeric identifiers compare
numerically and rank below alphanumeric ones, which compare in ASCII
order. -/
def cmpIdent (a b : String) : Ordering :=
  if isNumericIdent a then
    if isNumericIdent b then cmpNat (digitsToNat a.data) (digitsToNat b.data)
    else .lt
  else
    if isNumericIdent b then .gt
    else cmpStr a b

theorem cmpIdent_lawful : LawfulCmp cmpIdent := by
  constructor
  · intro a b
    unfold cmpIdent
    by_cases ha : isNumericIdent a = true <;> by_cases hb : isNumericIdent b = true <;>
      simp [ha, hb] <;>
      first
      | rfl
      | exact cmpNat_lawful.swap_eq _ _
      | exact cmpStr_lawful.swap_eq _ _
  · intro a b c hab hbc
    unfold cmpIdent at *
    by_cases ha : isNumericIdent a = true <;> by_cases hb : isNumericIdent b = true <;>
      by_cases hc : isNumericIdent c = true <;> simp [ha, hb, hc] at *
    · exact cmpNat_lawful.lt_trans _ _ _ hab hbc
    · exact cmpStr_lawful.lt_trans _ _ _ hab hbc
  · intro a b c hab
    unfold cmpIdent at *
    by_cases ha : isNumericIdent a = true <;> by_cases hb : isNumericIdent b = true <;>
      simp [ha, hb] at *
    · by_cases hc : isNumericIdent c = true <;> simp [hc]
      rw [cmpNat_eq_iff] at hab
      rw [hab]
    · have : a = b := cmpStr_eq_iff.1 hab
      rw [this]

/-- semver pre-release precedence: an empty pre-release (a final
release) ranks above any pre-release; otherwise identifiers compare
pointwise with the shorter list ranking below its extensions. -/
def cmpPre (a b : List String) : Ordering :=
  match a, b with
  | [], [] => .eq
  | [], _ :: _ => .gt
  | _ :: _, [] => .lt
  | x :: xs, y :: ys => lexCompare cmpIdent (x :: xs) (y :: ys)

theorem cmpPre_lawful : LawfulCmp cmpPre := by
  have hlex := lexCompare_lawful cmpIdent_lawful
  constructor
  · intro a b
    cases a <;> cases b <;> simp [cmpPre] <;>
      first
      | rfl
      | exact hlex.swap_eq _ _
  · intro a b c hab hbc
    cases a <;> cases b <;> cases c <;> simp [cmpPre] at *
    exact hlex.lt_trans _ _ _ hab hbc
  · intro a b c hab
    cases a <;> cases b <;> simp [cmpPre] at *
    case cons.cons x xs y ys =>
      cases c <;> simp [cmpPre]
      exact hlex.eq_left _ _ _ hab

/-- Model of `semver.VersionInfo` comparison (`compare`): major, minor,
patch numerically, then pre-release precedence.  Build metadata is
ignored by semver comparisons. -/
def semCompare (a b : Semver) : Ordering :=
  (cmpNat a.major b.major).then
    ((cmpNat a.minor b.minor).then
      ((cmpNat a.patch b.patch).then (cmpPre a.prerelease b.prerelease)))

theorem semCompare_lawful : LawfulCmp semCompare :=
  thenCmp_lawful (onCmp_lawful (f := Semver.major) cmpNat_lawful)
    (thenCmp_lawful (onCmp_lawful (f := Semver.minor) cmpNat_lawful)
      (thenCmp_lawful (onCmp_lawful (f := Semver.patch) cmpNat_lawful)
        (onCmp_lawful (f := Semver.prerelease) cmpPre_lawful)))

/-! ## Version parsing -/

/-- A dotted release segment: nonempty, all digits (`packaging` accepts
leading zeros in release segments and normalizes them away). -/
def parseAllDigits (s : String) : Option Nat :=
  if !s.data.isEmpty && s.data.all Char.isDigit then some (digitsToNat s.data)
  else none

/-- The final dotted segment may carry the `rcN` pre-release suffix. -/
def parseLastComp (s : String) : Option (Nat × Option Nat) :=
  match h : s.data.span Char.isDigit with
  | (ds, rest) =>
    if ds.isEmpty then none
    else
      match rest with
      | [] => some (digitsToNat ds, none)
      | 'r' :: 'c' :: more =>
        match more.span Char.isDigit with
        | (ds₂, rest₂) =>
          if ds₂.isEmpty || !rest₂.isEmpty then none
          else some (digitsToNat ds, some (digitsToNat ds₂))
      | _ => none

/-- Modelled from the `packaging.version` library (an external
dependency, not part of this repository): parses the PEP 440 subset
`N(.N)*` with an optional `rcN` pre-release suffix — the only forms the
plugin's compatibility table and Synapse version reports use.  Any other
string is a parse failure (`packaging.version.parse` raises
`InvalidVersion`). -/
def pyParse (tok : String) : Option PyVersion :=
  let parts := strSplitChar '.' tok
  match parts.getLast? with
  | none => none
  | some lastP =>
    match parts.dropLast.mapM parseAllDigits, parseLastComp lastP with
    | some rel, some (n, rc) => some ⟨rel ++ [n], rc⟩
    | _, _ => none

/-- Pre-release identifier validity: nonempty, alphanumeric/hyphen, and
numeric identifiers carry no leading zero. -/
def validPreIdent (s : String) : Bool :=
  !s.data.isEmpty && s.data.all isIdentChar &&
    (!(s.data.all Char.isDigit) || s.data.length == 1 || s.data.head? != some '0')

/-- Build identifier validity: nonempty, alphanumeric/hyphen (leading
zeros are allowed in build metadata). -/
def validBuildIdent (s : String) : Bool :=
  !s.data.isEmpty && s.data.all isIdentChar

/-- A `0|[1-9]\d*` numeric version component. -/
def parseNumNoLeadZero (s : String) : Option Nat :=
  if !s.data.isEmpty && s.data.all Char.isDigit &&
      (s.data.length == 1 || s.data.head? != some '0')
  then some (digitsToNat s.data)
  else none

/-- Modelled from the `semver` library (an external dependency, not part
of this repository): `semver.VersionInfo.parse` accepts exactly
`MAJOR.MINOR.PATCH[-PRERELEASE][+BUILD]` per the semver 2.0.0 grammar and
raises `ValueError` on anything else. -/
def semParse (s : String) : Option Semver :=
  match strSplitChar '+' s with
  | [] => none
  | core :: buildParts =>
    let build? : Option (List String) :=
      match buildParts with
      | [] => some []
      | [b] =>
        let bids := strSplitChar '.' b
        if bids.all validBuildIdent then some bids else none
      | _ => none
    match strSplitChar '-' core with
    | [] => none
    | verPart :: preRest =>
      let pre? : Option (List String) :=
        match preRest with
        | [] => some []
        | _ =>
          let pids := strSplitChar '.' (joinSep "-" preRest)
          if pids.all validPreIdent then some pids else none
      match strSplitChar '.' verPart with
      | [ma, mi, pa] =>
        match parseNumNoLeadZero ma, parseNumNoLeadZero mi,
            parseNumNoLeadZero pa, pre?, build? with
        | some vM, some vm, some vp, some pre, some bld =>
          some ⟨vM, vm, vp, pre, bld⟩
        | _, _, _, _, _ => none
      | _ => none

/-- `rsvc.py` line 122: a version is a Python string, a `packaging`
version, or a `semver` version. -/
inductive VersionIdentifier where
  | str (s : String)
  | py (v : PyVersion)
  | sem (v : Semver)
  deriving DecidableEq, Repr

/-- The runtime type of a version value. -/
inductive VKind where
  | str
  | py
  | sem
  deriving DecidableEq, Repr

def VersionIdentifier.kind : VersionIdentifier → VKind
  | .str _ => .str
  | .py _ => .py
  | .sem _ => .sem

/-- Three-way comparison of version values.  Python order comparisons
between distinct kinds raise `TypeError` (modelled as `none`); within a
kind, `packaging` compares by sort key, `semver` by `compare`, and plain
strings lexicographically. -/
def versionCompare : VersionIdentifier → VersionIdentifier → Option Ordering
  | .str a, .str b => some (cmpStr a b)
  | .py a, .py b => some (pyCompare a b)
  | .sem a, .sem b => some (semCompare a b)
  | _, _ => none

/-- Python `<` on version values. -/
def versionLt (a b : VersionIdentifier) : Option Bool :=
  (versionCompare a b).map (fun o => o == Ordering.lt)

/-- Python `>` on version values. -/
def versionGt (a b : VersionIdentifier) : Option Bool :=
  (versionCompare a b).map (fun o => o == Ordering.gt)

/-- Python `>=` on version values. -/
def versionGe (a b : VersionIdentifier) : Option Bool :=
  (versionCompare a b).map (fun o => !(o == Ordering.lt))

/-- Python `==` on version values: equality across kinds is `False`
(never an error); within a kind it is key/precedence equality. -/
def versionEqB (a b : VersionIdentifier) : Bool :=
  match versionCompare a b with
  | some .eq => true
  | _ => false

/-- Rendering of a `packaging` version (`str()`). -/
def pyVersionString (v : PyVersion) : String :=
  joinSep "." (v.release.map toString) ++
    (match v.rc with
     | none => ""
     | some n => "rc" ++ toString n)

/-- Rendering of a `semver` version (`str()`). -/
def semVersionString (v : Semver) : String :=
  toString v.major ++ "." ++ toString v.minor ++ "." ++ toString v.patch ++
    (if v.prerelease.isEmpty then ""
     else "-" ++ joinSep "." v.prerelease) ++
    (if v.build.isEmpty then "" else "+" ++ joinSep "." v.build)

def versionString : VersionIdentifier → String
  | .str s => s
  | .py v => pyVersionString v
  | .sem v => semVersionString v

/-- `rsvc.py` lines 125-127: `ServerInfo` is a named tuple of the
software family and its version value. -/
structure ServerInfo where
  software : String
  version : VersionIdentifier
  deriving DecidableEq, Repr

/-- `rsvc.py` lines 129-144, `ServerInfo.parse`: recognized families
(case-insensitively) get their family parser — Synapse via `packaging`
on the first space-separated token, Dendrite/Conduit/Catalyst via
`semver` — and anything else falls back to the raw opaque string.
`none` models the library parsers raising on malformed input. -/
def ServerInfo.parse (software version : String) : Option ServerInfo :=
  let sl := strLower software
  if sl = "synapse" then
    (pyParse ((strSplitChar ' ' version).headD "")).map fun v => ⟨"Synapse", .py v⟩
  else if sl = "dendrite" then
    (semParse version).map fun v => ⟨"Dendrite", .sem v⟩
  else if sl = "conduit" then
    (semParse version).map fun v => ⟨"Conduit", .sem v⟩
  else if sl = "catalyst" then
    (semParse version).map fun v => ⟨"Catalyst", .sem v⟩
  else
    some ⟨software, .str version⟩

/-- `rsvc.py` lines 162-163, `ServerInfo.__str__`. -/
def ServerInfo.str (info : ServerInfo) : String :=
  info.software ++ " " ++ versionString info.version

example : pyParse "1.41.0" = some ⟨[1, 41, 0], none⟩ := by decide
example : pyParse "1.42.0rc2" = some ⟨[1, 42, 0], some 2⟩ := by decide
example : pyParse "abc" = none := by decide
example : semParse "0.9.3" = some ⟨0, 9, 3, [], []⟩ := by decide
example : semParse "1.2.3-rc.1+build.5" = some ⟨1, 2, 3, ["rc", "1"], ["build", "5"]⟩ := by
  decide
example : semParse "abc" = none := by decide
example : semParse "1.2" = none := by decide
example :
    ServerInfo.parse "synapse" "1.41.0 (b=matrix-org-hotfixes,5f4e1e1a6)" =
      some ⟨"Synapse", .py ⟨[1, 41, 0], none⟩⟩ := by decide

/-! ## Compatibility table (`rsvc.py` lines 52-113) -/

/-- A table entry: an unconditional boolean or a minimum version. -/
inductive Req where
  | fixed (b : Bool)
  | minVer (v : VersionIdentifier)
  deriving DecidableEq

/-- The `"Synapse"` row: `packaging` minimum versions. -/
def synapseRow : String → Option Req
  | "1" => some (.fixed true)
  | "2" => some (.minVer (.py ⟨[0, 99, 0], some 1⟩))
  | "3" => some (.minVer (.py ⟨[0, 99, 0], some 1⟩))
  | "4" => some (.minVer (.py ⟨[0, 99, 5], some 1⟩))
  | "5" => some (.minVer (.py ⟨[1, 0, 0], some 1⟩))
  | "6" => some (.minVer (.py ⟨[1, 14, 0], some 1⟩))
  | "7" => some (.minVer (.py ⟨[1, 37, 0], some 1⟩))
  | "8" => some (.minVer (.py ⟨[1, 40, 0], some 3⟩))
  | "9" => some (.minVer (.py ⟨[1, 42, 0], some 2⟩))
  | "10" => some (.minVer (.py ⟨[1, 64, 0], some 1⟩))
  | _ => none

/-- The `"construct"` row: booleans only. -/
def constructRow : String → Option Req
  | "1" | "2" | "3" | "4" | "5" | "6" | "7" | "8" | "9" => some (.fixed true)
  | "10" => some (.fixed false)
  | _ => none

/-- The `"Dendrite"` row: `semver` minimum versions. -/
def dendriteRow : String → Option Req
  | "1" | "2" | "3" | "4" | "5" | "6" => some (.fixed true)
  | "7" => some (.minVer (.sem ⟨0, 4, 1, [], []⟩))
  | "8" => some (.minVer (.sem ⟨0, 8, 6, [], []⟩))
  | "9" => some (.minVer (.sem ⟨0, 8, 6, [], []⟩))
  | "10" => some (.minVer (.sem ⟨0, 8, 7, [], []⟩))
  | _ => none

/-- The `"Conduit"` row. -/
def conduitRow : String → Option Req
  | "1" | "2" | "3" | "4" | "5" => some (.fixed false)
  | "6" => some (.fixed true)
  | "7" => some (.minVer (.sem ⟨0, 4, 0, [], []⟩))
  | "8" => some (.minVer (.sem ⟨0, 4, 0, [], []⟩))
  | "9" => some (.minVer (.sem ⟨0, 4, 0, [], []⟩))
  | "10" => some (.fixed false)
  | _ => none

/-- The `"Catalyst"` row: booleans only. -/
def catalystRow : String → Option Req
  | "1" | "2" | "3" | "4" | "5" => some (.fixed false)
  | "6" | "7" | "8" | "9" | "10" => some (.fixed true)
  | _ => none

/-- `minimum_version`, the software-keyed sparse compatibility table.
An absent family is a Python `KeyError` at the lookup site. -/
def minimum_version : String → Option (String → Option Req)
  | "Synapse" => some synapseRow
  | "construct" => some constructRow
  | "Dendrite" => some dendriteRow
  | "Conduit" => some conduitRow
  | "Catalyst" => some catalystRow
  | _ => none

example : pyParse "0.99.0rc1" = some ⟨[0, 99, 0], some 1⟩ := by decide
example : pyParse "1.42.0rc2" = some ⟨[1, 42, 0], some 2⟩ := by decide
example : semParse "0.8.6" = some ⟨0, 8, 6, [], []⟩ := by decide

/-- `rsvc.py` lines 146-153, `ServerInfo.is_new_enough`: index the table
by the software family (`KeyError` → `none`), default to `False` when
the revision key is absent, return booleans directly, otherwise compare
`self.version >= minimum`.  (The `callable(minimum)` branch is dead: the
table holds no callables.) -/
def ServerInfo.is_new_enough (info : ServerInfo) (room_ver : String) : Option Bool :=
  match minimum_version info.software with
  | none => none
  | some row =>
    match row room_ver with
    | none => some false
    | some (.fixed b) => some b
    | some (.minVer v) => versionGe info.version v

/-- `rsvc.py` lines 115-120, `server_order`: display priorities, with
`.get(software, 0)` for unlisted families. -/
def server_order (s : String) : Nat :=
  match s with
  | "Synapse" => 100
  | "construct" => 50
  | "Conduit" => 40
  | "Dendrite" => 10
  | _ => 0

/-- `rsvc.py` lines 165-169, `ServerInfo.__lt__`: same software compares
versions natively; different software compares display priorities.
`none` models a `TypeError` from comparing mixed version kinds. -/
def ServerInfo.lt (a b : ServerInfo) : Option Bool :=
  if a.software = b.software then versionLt a.version b.version
  else some (decide (server_order a.software < server_order b.software))

/-- Python `==` on `ServerInfo` (NamedTuple equality: componentwise). -/
def ServerInfo.eqB (a b : ServerInfo) : Bool :=
  a.software == b.software && versionEqB a.version b.version

/-- Python `>` on `ServerInfo`: `__gt__` is *not* overridden, so tuple
comparison applies — equal software names fall through to the native
version `>`, different names compare as plain strings. -/
def ServerInfo.gt (a b : ServerInfo) : Option Bool :=
  if a.software = b.software then versionGt a.version b.version
  else some (cmpStr a.software b.software == Ordering.gt)

/-! ## Claim C1: `is_new_enough` against the table -/

/-- C1: for every family with a table row and every target revision,
`is_new_enough` returns the row's literal boolean for boolean entries,
`version >= minimum` under the family-native ordering for minimum
entries, and `False` when the revision key is absent; concretely, parsed
Synapse 1.41.0 is not new enough for revision "9" (minimum 1.42.0rc2)
and is new enough for revision "8" (minimum 1.40.0rc3). -/
theorem claim_c1 :
    (∀ (info : ServerInfo) (rv : String) (row : String → Option Req),
        minimum_version info.software = some row →
        (∀ b, row rv = some (.fixed b) → info.is_new_enough rv = some b) ∧
        (row rv = none → info.is_new_enough rv = some false) ∧
        (∀ v, row rv = some (.minVer v) →
          info.is_new_enough rv = versionGe info.version v)) ∧
    ServerInfo.parse "Synapse" "1.41.0" =
      some ⟨"Synapse", .py ⟨[1, 41, 0], none⟩⟩ ∧
    ServerInfo.is_new_enough ⟨"Synapse", .py ⟨[1, 41, 0], none⟩⟩ "9" = some false ∧
    ServerInfo.is_new_enough ⟨"Synapse", .py ⟨[1, 41, 0], none⟩⟩ "8" = some true := by
  refine ⟨?_, by decide, by decide, by decide⟩
  intro info rv row hrow
  refine ⟨?_, ?_, ?_⟩
  · intro b hb
    simp [ServerInfo.is_new_enough, hrow, hb]
  · intro hnone
    simp [ServerInfo.is_new_enough, hrow, hnone]
  · intro v hv
    simp [ServerInfo.is_new_enough, hrow, hv]

/-- Witness for C1: instantiating the table-lookup part at Synapse
1.41.0 and revision "9" yields the minimum-version comparison. -/
theorem claim_c1_witness :
    ServerInfo.is_new_enough ⟨"Synapse", .py ⟨[1, 41, 0], none⟩⟩ "9" =
      versionGe (.py ⟨[1, 41, 0], none⟩) (.py ⟨[1, 42, 0], some 2⟩) :=
  (claim_c1.1 ⟨"Synapse", .py ⟨[1, 41, 0], none⟩⟩ "9" synapseRow rfl).2.2
    (.py ⟨[1, 42, 0], some 2⟩) rfl

/-! ## Claim C3: totality of `ServerInfo.parse` -/

/-- Is the family hint one of the recognized families? -/
def recognizedFamily (s : String) : Bool :=
  let sl := strLower s
  sl == "synapse" || sl == "dendrite" || sl == "conduit" || sl == "catalyst"

/-- C3 counterexample: for the recognized family hint `"dendrite"` and
raw version `"abc"`, `ServerInfo.parse` raises (semver `ValueError`,
modelled as `none`) instead of returning a version value — refuting
"never fails ... for any raw version string".  (The `match` command in
the source catches exactly this `ValueError` from `ServerInfo.parse`.) -/
theorem claim_c3_counterexample : ServerInfo.parse "dendrite" "abc" = none := by
  decide

/-- C3 (amended): `parse` never fails when the family hint is
unrecognized — it falls back to the opaque raw token; for recognized
families it succeeds exactly when the family grammar accepts the raw
string (Synapse: PEP 440 on the first space-separated token;
Dendrite/Conduit/Catalyst: semver), and fails otherwise. -/
theorem claim_c3_amended :
    ∀ (software version : String),
      (recognizedFamily software = false →
        ServerInfo.parse software version = some ⟨software, .str version⟩) ∧
      (strLower software = "synapse" →
        (ServerInfo.parse software version).isSome =
          (pyParse ((strSplitChar ' ' version).headD "")).isSome) ∧
      ((strLower software = "dendrite" ∨ strLower software = "conduit" ∨
          strLower software = "catalyst") →
        (ServerInfo.parse software version).isSome = (semParse version).isSome) := by
  intro sw v
  refine ⟨?_, ?_, ?_⟩
  · intro h
    unfold recognizedFamily at h
    simp only [Bool.or_eq_false_iff, beq_eq_false_iff_ne, ne_eq] at h
    obtain ⟨⟨⟨h1, h2⟩, h3⟩, h4⟩ := h
    unfold ServerInfo.parse
    simp [h1, h2, h3, h4]
  · intro h
    unfold ServerInfo.parse
    simp [h]
  · intro h
    unfold ServerInfo.parse
    rcases h with h | h | h <;> simp [h]

/-- Witness for C3 (amended): an unrecognized family hint falls back to
the opaque token. -/
theorem claim_c3_amended_witness :
    ServerInfo.parse "FooServer" "whatever 1.0" =
      some ⟨"FooServer", .str "whatever 1.0"⟩ :=
  (claim_c3_amended "FooServer" "whatever 1.0").1 (by decide)

/-! ## Claim C9: within-family trichotomy -/

/-- The version kind `ServerInfo.parse` attaches to each canonical
family name. -/
def familyKind (s : String) : VKind :=
  if s = "Synapse" then .py
  else if s = "Dendrite" ∨ s = "Conduit" ∨ s = "Catalyst" then .sem
  else .str

theorem parse_familyKind (sw v : String) (info : ServerInfo)
    (h : ServerInfo.parse sw v = some info) :
    info.version.kind = familyKind info.software := by
  unfold ServerInfo.parse at h
  by_cases h1 : strLower sw = "synapse"
  · simp [h1] at h
    obtain ⟨pv, hpv, rfl⟩ := h
    simp [VersionIdentifier.kind, familyKind]
  · by_cases h2 : strLower sw = "dendrite"
    · simp [h1, h2] at h
      obtain ⟨sv, hsv, rfl⟩ := h
      simp [VersionIdentifier.kind, familyKind]
    · by_cases h3 : strLower sw = "conduit"
      · simp [h1, h2, h3] at h
        obtain ⟨sv, hsv, rfl⟩ := h
        simp [VersionIdentifier.kind, familyKind]
      · by_cases h4 : strLower sw = "catalyst"
        · simp [h1, h2, h3, h4] at h
          obtain ⟨sv, hsv, rfl⟩ := h
          simp [VersionIdentifier.kind, familyKind]
        · simp [h1, h2, h3, h4] at h
          obtain ⟨rfl⟩ := h
          have hsy : sw ≠ "Synapse" := by
            intro hh; rw [hh] at h1; exact h1 (by decide)
          have hde : sw ≠ "Dendrite" := by
            intro hh; rw [hh] at h2; exact h2 (by decide)
          have hco : sw ≠ "Conduit" := by
            intro hh; rw [hh] at h3; exact h3 (by decide)
          have hca : sw ≠ "Catalyst" := by
            intro hh; rw [hh] at h4; exact h4 (by decide)
          simp [VersionIdentifier.kind, familyKind, hsy, hde, hco, hca]

theorem kind_compare (x y : VersionIdentifier) (h : x.kind = y.kind) :
    ∃ o, versionCompare x y = some o := by
  cases x <;> cases y <;> simp [VersionIdentifier.kind] at h <;>
    simp [versionCompare]

/-- C9: for any two parse-produced values of the same family, exactly
one of Python `<`, `==`, `>` holds (within-family comparison is a total
order, including the opaque-token fallback). -/
theorem claim_c9 :
    ∀ (sw₁ v₁ sw₂ v₂ : String) (a b : ServerInfo),
      ServerInfo.parse sw₁ v₁ = some a → ServerInfo.parse sw₂ v₂ = some b →
      a.software = b.software →
      (a.lt b = some true ∨ a.eqB b = true ∨ a.gt b = some true) ∧
      ¬(a.lt b = some true ∧ a.eqB b = true) ∧
      ¬(a.lt b = some true ∧ a.gt b = some true) ∧
      ¬(a.eqB b = true ∧ a.gt b = some true) := by
  intro sw₁ v₁ sw₂ v₂ a b h₁ h₂ hsw
  have hk : a.version.kind = b.version.kind := by
    rw [parse_familyKind _ _ _ h₁, parse_familyKind _ _ _ h₂, hsw]
  obtain ⟨o, ho⟩ := kind_compare _ _ hk
  unfold ServerInfo.lt ServerInfo.eqB ServerInfo.gt versionLt versionGt versionEqB
  rw [ho]
  simp [hsw]
  cases o <;> simp <;> decide

/-- Witness for C9, at two parsed Synapse versions 1.2.0 and 1.10.0. -/
theorem claim_c9_witness :
    (ServerInfo.lt ⟨"Synapse", .py ⟨[1, 2, 0], none⟩⟩
        ⟨"Synapse", .py ⟨[1, 10, 0], none⟩⟩ = some true ∨
      ServerInfo.eqB ⟨"Synapse", .py ⟨[1, 2, 0], none⟩⟩
        ⟨"Synapse", .py ⟨[1, 10, 0], none⟩⟩ = true ∨
      ServerInfo.gt ⟨"Synapse", .py ⟨[1, 2, 0], none⟩⟩
        ⟨"Synapse", .py ⟨[1, 10, 0], none⟩⟩ = some true) ∧
    ¬(ServerInfo.lt ⟨"Synapse", .py ⟨[1, 2, 0], none⟩⟩
        ⟨"Synapse", .py ⟨[1, 10, 0], none⟩⟩ = some true ∧
      ServerInfo.eqB ⟨"Synapse", .py ⟨[1, 2, 0], none⟩⟩
        ⟨"Synapse", .py ⟨[1, 10, 0], none⟩⟩ = true) ∧
    ¬(ServerInfo.lt ⟨"Synapse", .py ⟨[1, 2, 0], none⟩⟩
        ⟨"Synapse", .py ⟨[1, 10, 0], none⟩⟩ = some true ∧
      ServerInfo.gt ⟨"Synapse", .py ⟨[1, 2, 0], none⟩⟩
        ⟨"Synapse", .py ⟨[1, 10, 0], none⟩⟩ = some true) ∧
    ¬(ServerInfo.eqB ⟨"Synapse", .py ⟨[1, 2, 0], none⟩⟩
        ⟨"Synapse", .py ⟨[1, 10, 0], none⟩⟩ = true ∧
      ServerInfo.gt ⟨"Synapse", .py ⟨[1, 2, 0], none⟩⟩
        ⟨"Synapse", .py ⟨[1, 10, 0], none⟩⟩ = some true) :=
  claim_c9 "synapse" "1.2.0" "Synapse" "1.10.0"
    ⟨"Synapse", .py ⟨[1, 2, 0], none⟩⟩ ⟨"Synapse", .py ⟨[1, 10, 0], none⟩⟩
    (by decide) (by decide) rfl

/-! ## Batch results (`rsvc.py` lines 172-178)

Python dicts are insertion-ordered; they are modelled as association
lists with `List.lookup` access.  The `event_id` handle and the
`asyncio.Lock` are I/O artefacts carried by the dataclass but irrelevant
to the data invariants. -/

/-- The `Results` dataclass: room members keyed by server name, and the
per-server outcome split into `versions` (successes) and `errors`
(failures). -/
structure Results where
  servers : List (String × List String)
  versions : List (String × ServerInfo)
  errors : List (String × String)
  deriving DecidableEq

/-- Outcome of one `_test(server)` probe as observed by its caller:
a parsed `ServerInfo`, a raised `TestError`, an `asyncio.TimeoutError`,
or any other exception. -/
inductive ProbeOutcome where
  | success (info : ServerInfo)
  | testError (msg : String)
  | timedOut
  | crashed
  deriving DecidableEq

def outcomeVersion : ProbeOutcome → Option ServerInfo
  | .success i => some i
  | _ => none

/-- The error text recorded by the `except` arms of `_test_all`/`retest`
(`rsvc.py` lines 371-379 and 522-531). -/
def outcomeError : ProbeOutcome → Option String
  | .success _ => none
  | .testError e => some e
  | .timedOut => some "test timed out"
  | .crashed => some "internal plugin error"

theorem outcomeVersion_isSome (o : ProbeOutcome) :
    (outcomeVersion o).isSome = !(outcomeError o).isSome := by
  cases o <;> rfl

/-- `rsvc.py` lines 367-383, `_test_all`: one probe per server, all run
concurrently via `asyncio.gather`; each routes its own outcome into
`versions` or `errors` as it completes.  The nondeterministic completion
order of the gather is the explicit `order` parameter (a permutation of
the server names); the dicts receive entries in completion order. -/
def test_all (servers : List (String × List String))
    (probe : String → ProbeOutcome) (order : List String) : Results where
  servers := servers
  versions := order.filterMap fun s => (outcomeVersion (probe s)).map fun i => (s, i)
  errors := order.filterMap fun s => (outcomeError (probe s)).map fun e => (s, e)

theorem lookup_filterMap {α : Type _} (g : String → Option α)
    (order : List String) (s : String) :
    (order.filterMap fun t => (g t).map fun v => (t, v)).lookup s =
      if s ∈ order then g s else none := by
  induction order with
  | nil => simp
  | cons x xs ih =>
    by_cases hx : s = x
    · subst hx
      cases hgx : g s
      · by_cases hmem : s ∈ xs <;> simp [List.filterMap_cons, hgx, ih, hmem]
      · simp [List.filterMap_cons, hgx, List.lookup]
    · have hbeq : (s == x) = false := by simp [hx]
      cases hgx : g x
      · simp [List.filterMap_cons, hgx, ih, hx, Ne.symm hx]
      · simp [List.filterMap_cons, hgx, List.lookup, hbeq, ih, hx, Ne.symm hx]

theorem length_filterMap_pair {α : Type _} (g : String → Option α)
    (order : List String) :
    (order.filterMap fun t => (g t).map fun v => (t, v)).length =
      (order.filter fun t => (g t).isSome).length := by
  induction order with
  | nil => rfl
  | cons x xs ih =>
    cases hgx : g x <;> simp [List.filterMap_cons, hgx, List.filter_cons, ih]

theorem filter_split_length {α : Type _} (p : α → Bool) (l : List α) :
    (l.filter p).length + (l.filter fun a => !(p a)).length = l.length := by
  induction l with
  | nil => rfl
  | cons x xs ih =>
    cases hx : p x <;> simp [List.filter_cons, hx] <;> omega

/-! ## Claim C2: `_test_all` isolation and completeness -/

/-- C2: for any server map, any per-server outcome assignment (success,
`TestError`, timeout, or any other exception), and any probe completion
order, `_test_all` produces a `Results` in which every server name
appears in exactly one of `versions`/`errors`, with exactly the failing
servers in `errors` and the rest in `versions` (`k` + `N-k` = `N`), and
the resulting maps do not depend on the completion order. -/
theorem claim_c2 :
    ∀ (servers : List (String × List String)) (probe : String → ProbeOutcome)
      (order : List String),
      order.Perm (servers.map Prod.fst) →
      (∀ s ∈ servers.map Prod.fst,
        (((test_all servers probe order).versions.lookup s).isSome ∧
          ((test_all servers probe order).errors.lookup s).isSome = false) ∨
        (((test_all servers probe order).versions.lookup s).isSome = false ∧
          ((test_all servers probe order).errors.lookup s).isSome)) ∧
      (test_all servers probe order).errors.length =
        ((servers.map Prod.fst).filter
          fun s => (outcomeError (probe s)).isSome).length ∧
      (test_all servers probe order).versions.length +
          (test_all servers probe order).errors.length = servers.length ∧
      (∀ order₂, order₂.Perm order → ∀ s,
        (test_all servers probe order₂).versions.lookup s =
          (test_all servers probe order).versions.lookup s ∧
        (test_all servers probe order₂).errors.lookup s =
          (test_all servers probe order).errors.lookup s) := by
  intro servers probe order hperm
  refine ⟨?_, ?_, ?_, ?_⟩
  · intro s hs
    have hmem : s ∈ order := hperm.mem_iff.2 hs
    unfold test_all
    rw [lookup_filterMap, lookup_filterMap]
    simp only [if_pos hmem]
    cases ho : probe s <;> simp [outcomeVersion, outcomeError]
  · unfold test_all
    rw [length_filterMap_pair]
    have := (hperm.filter fun s => (outcomeError (probe s)).isSome).length_eq
    simpa using this
  · unfold test_all
    rw [length_filterMap_pair, length_filterMap_pair]
    have hsplit := filter_split_length
      (fun s => (outcomeVersion (probe s)).isSome) order
    have hcongr : (order.filter fun s => !(outcomeVersion (probe s)).isSome) =
        (order.filter fun s => (outcomeError (probe s)).isSome) := by
      apply List.filter_congr
      intro s _
      rw [outcomeVersion_isSome]
      cases (outcomeError (probe s)).isSome <;> rfl
    rw [hcongr] at hsplit
    have hlen : order.length = servers.length := by
      have := hperm.length_eq
      simpa using this
    rw [hsplit]
    exact hlen
  · intro order₂ hperm₂ s
    unfold test_all
    rw [lookup_filterMap, lookup_filterMap, lookup_filterMap, lookup_filterMap]
    simp [hperm₂.mem_iff]

/-- Witness for C2: two servers, one failing, in reversed completion
order. -/
theorem claim_c2_witness :
    (((test_all [("a.com", ["u1"]), ("b.com", ["u2"])]
        (fun s => if s = "a.com" then .testError "unreachable"
          else .success ⟨"Synapse", .py ⟨[1, 41, 0], none⟩⟩)
        ["b.com", "a.com"]).versions.lookup "a.com").isSome = false ∧
      ((test_all [("a.com", ["u1"]), ("b.com", ["u2"])]
        (fun s => if s = "a.com" then .testError "unreachable"
          else .success ⟨"Synapse", .py ⟨[1, 41, 0], none⟩⟩)
        ["b.com", "a.com"]).errors.lookup "a.com").isSome) ∧
    (test_all [("a.com", ["u1"]), ("b.com", ["u2"])]
        (fun s => if s = "a.com" then .testError "unreachable"
          else .success ⟨"Synapse", .py ⟨[1, 41, 0], none⟩⟩)
        ["b.com", "a.com"]).errors.length = 1 ∧
    (test_all [("a.com", ["u1"]), ("b.com", ["u2"])]
        (fun s => if s = "a.com" then .testError "unreachable"
          else .success ⟨"Synapse", .py ⟨[1, 41, 0], none⟩⟩)
        ["b.com", "a.com"]).versions.length +
      (test_all [("a.com", ["u1"]), ("b.com", ["u2"])]
        (fun s => if s = "a.com" then .testError "unreachable"
          else .success ⟨"Synapse", .py ⟨[1, 41, 0], none⟩⟩)
        ["b.com", "a.com"]).errors.length = 2 := by
  have h := claim_c2 [("a.com", ["u1"]), ("b.com", ["u2"])]
    (fun s => if s = "a.com" then .testError "unreachable"
      else .success ⟨"Synapse", .py ⟨[1, 41, 0], none⟩⟩)
    ["b.com", "a.com"] (by decide)
  refine ⟨?_, ?_, ?_⟩
  · have hone := h.1 "a.com" (by decide)
    rcases hone with ⟨hv, he⟩ | ⟨hv, he⟩
    · exact absurd hv (by decide)
    · exact ⟨hv, he⟩
  · rw [h.2.1]; decide
  · rw [h.2.2.1]; decide

/-! ## Incremental re-probe (`rsvc.py` lines 493-556, `retest`)

The command handler is split at its single suspension point (the probe
`await`): `retestBegin` is the synchronous prefix that validates the
request and pops the previous outcome, `retestFinish` the synchronous
suffix that stores the new outcome and decides whether to republish the
batch summary. -/

/-- `dict.pop`-style removal of a key. -/
def removeKey {α : Type _} (l : List (String × α)) (k : String) :
    List (String × α) :=
  l.filter fun p => !(p.1 == k)

/-- Python `d[k] = v`: replace in place when the key exists, else append
(insertion order). -/
def setKey {α : Type _} (l : List (String × α)) (k : String) (v : α) :
    List (String × α) :=
  if (l.lookup k).isSome then l.map fun p => if p.1 == k then (k, v) else p
  else l ++ [(k, v)]

theorem lookup_removeKey_self {α : Type _} (l : List (String × α)) (k : String) :
    (removeKey l k).lookup k = none := by
  induction l with
  | nil => rfl
  | cons p tl ih =>
    by_cases hp : p.1 = k
    · simp [removeKey, List.filter_cons, hp] at *
      exact ih
    · have hbeq : (p.1 == k) = false := by simp [hp]
      have hbeq' : (k == p.1) = false := by simp [Ne.symm hp]
      simp [removeKey, List.filter_cons, hbeq, List.lookup, hbeq'] at *
      exact ih

theorem lookup_removeKey_other {α : Type _} (l : List (String × α))
    (k t : String) (h : t ≠ k) : (removeKey l t).lookup k = l.lookup k := by
  induction l with
  | nil => rfl
  | cons p tl ih =>
    by_cases hp : p.1 = t
    · have hbeq : (p.1 == t) = true := by simp [hp]
      have hk : (k == p.1) = false := by simp [hp, Ne.symm h]
      simp [removeKey, List.filter_cons, hbeq, List.lookup, hk] at *
      exact ih
    · have hbeq : (p.1 == t) = false := by simp [hp]
      simp only [removeKey, List.filter_cons, hbeq, Bool.not_false] at *
      cases p with
      | mk k₀ v₀ =>
        by_cases hk : k = k₀
        · simp [List.lookup, hk]
        · have hk' : (k == k₀) = false := by simp [hk]
          simp [List.lookup, hk'] at *
          exact ih

theorem lookup_append_key {α : Type _} (l : List (String × α)) (k : String)
    (v : α) (h : l.lookup k = none) : (l ++ [(k, v)]).lookup k = some v := by
  induction l with
  | nil => simp [List.lookup]
  | cons p tl ih =>
    cases p with
    | mk k₀ v₀ =>
      simp only [List.lookup] at h
      cases hk : k == k₀
      · rw [hk] at h
        simp only [List.cons_append, List.lookup, hk]
        exact ih h
      · rw [hk] at h
        simp at h

theorem lookup_append_single_other {α : Type _} (l : List (String × α))
    (k t : String) (v : α) (h : k ≠ t) :
    (l ++ [(t, v)]).lookup k = l.lookup k := by
  induction l with
  | nil =>
    have h2 : (k == t) = false := by simp [h]
    simp [List.lookup, h2]
  | cons p tl ih =>
    cases p with
    | mk k₀ v₀ =>
      simp only [List.cons_append, List.lookup]
      cases hk : k == k₀
      · exact ih
      · rfl

/-- Storing a key that is currently absent (the only way `retest` uses
dict assignment) appends it. -/
theorem lookup_setKey_self_absent {α : Type _} (l : List (String × α))
    (k : String) (v : α) (h : l.lookup k = none) :
    (setKey l k v).lookup k = some v := by
  unfold setKey
  rw [if_neg (by simp [h])]
  exact lookup_append_key l k v h

theorem lookup_setKey_other_absent {α : Type _} (l : List (String × α))
    (t : String) (v : α) (k : String) (habs : l.lookup t = none) (h : k ≠ t) :
    (setKey l t v).lookup k = l.lookup k := by
  unfold setKey
  rw [if_neg (by simp [habs])]
  exact lookup_append_single_other l k t v h

/-- Python `==` on `Optional[ServerInfo]` (`None` only equals `None`;
values compare by NamedTuple equality). -/
def optInfoEq : Option ServerInfo → Option ServerInfo → Bool
  | none, none => true
  | some a, some b => a.eqB b
  | _, _ => false

/-- Result of `retest`'s synchronous validation prefix. -/
inductive RetestBegin where
  | notMember
  | inFlight
  | started (cache' : Results) (prevVersion : Option ServerInfo)
      (prevError : Option String)
  deriving DecidableEq

/-- `rsvc.py` lines 501-516: reject a server absent from `servers`;
otherwise pop its previous entry — from `versions` first, else from
`errors`; if neither holds one (a re-probe is mid-flight), reject
without touching the batch. -/
def retestBegin (cache : Results) (server : String) : RetestBegin :=
  if (cache.servers.lookup server).isSome = false then .notMember
  else
    match cache.versions.lookup server with
    | some pv =>
      .started { cache with versions := removeKey cache.versions server }
        (some pv) none
    | none =>
      match cache.errors.lookup server with
      | some pe =>
        .started { cache with errors := removeKey cache.errors server }
          none (some pe)
      | none => .inFlight

/-- `rsvc.py` lines 519-537: store the new outcome in `versions` or
`errors` (with the same exception-to-text mapping as the batch path) and
republish the batch summary exactly when the outcome differs from the
previous one (`new_error != prev_error or new_version != prev_version`);
the republish itself runs under `cache.lock`. -/
def retestFinish (cache : Results) (server : String) (probe : ProbeOutcome)
    (prevVersion : Option ServerInfo) (prevError : Option String) :
    Results × Bool :=
  let cache' :=
    match probe with
    | .success i => { cache with versions := setKey cache.versions server i }
    | .testError e => { cache with errors := setKey cache.errors server e }
    | .timedOut =>
      { cache with errors := setKey cache.errors server "test timed out" }
    | .crashed =>
      { cache with errors := setKey cache.errors server "internal plugin error" }
  let publish :=
    !(outcomeError probe == prevError) ||
      !(optInfoEq (outcomeVersion probe) prevVersion)
  (cache', publish)

/-- Outcome of a whole `retest` command. -/
inductive RetestOutcome where
  | notMember (cache : Results)
  | inFlight (cache : Results)
  | completed (cache : Results) (published : Bool)
  deriving DecidableEq

/-- The whole `retest` command for a cached batch: validation prefix,
one probe, storing suffix. -/
def retest (cache : Results) (server : String) (probe : ProbeOutcome) :
    RetestOutcome :=
  match retestBegin cache server with
  | .notMember => .notMember cache
  | .inFlight => .inFlight cache
  | .started cache' pv pe =>
    let r := retestFinish cache' server probe pv pe
    .completed r.1 r.2

/-! ## Claim C6: batch membership invariant under re-probes -/

/-- The spec's Batch Result invariant: every member appears in exactly
one of `versions`/`errors` (the "neither" state occurs only inside an
in-flight re-probe, i.e. between `retestBegin` and `retestFinish`). -/
def ExactlyOne (cache : Results) : Prop :=
  ∀ s, (cache.servers.lookup s).isSome →
    (((cache.versions.lookup s).isSome ∧ (cache.errors.lookup s).isSome = false) ∨
      ((cache.versions.lookup s).isSome = false ∧ (cache.errors.lookup s).isSome))

theorem lookup_isSome_mem {α : Type _} (l : List (String × α)) (s : String)
    (h : (l.lookup s).isSome = true) : s ∈ l.map Prod.fst := by
  induction l with
  | nil => simp [List.lookup] at h
  | cons p tl ih =>
    cases p with
    | mk k v =>
      simp only [List.lookup] at h
      cases hk : s == k
      · rw [hk] at h
        simp [ih h]
      · have : s = k := by simpa using hk
        simp [this]

/-- What `retestBegin` guarantees when it starts a re-probe on a batch
satisfying the invariant: the server's entry is popped (the in-flight
"neither" window), everything else is untouched. -/
theorem retestBegin_started (cache : Results) (server : String)
    (cache' : Results) (pv : Option ServerInfo) (pe : Option String)
    (hinv : ExactlyOne cache)
    (h : retestBegin cache server = .started cache' pv pe) :
    cache'.versions.lookup server = none ∧
    cache'.errors.lookup server = none ∧
    cache'.servers = cache.servers ∧
    (∀ t, t ≠ server → cache'.versions.lookup t = cache.versions.lookup t ∧
      cache'.errors.lookup t = cache.errors.lookup t) := by
  unfold retestBegin at h
  by_cases hmem : (cache.servers.lookup server).isSome = false
  · simp [hmem] at h
  · rw [if_neg (by simpa using hmem)] at h
    have hmem' : (cache.servers.lookup server).isSome = true := by
      simpa using hmem
    cases hv : cache.versions.lookup server with
    | some pv₀ =>
      rw [hv] at h
      obtain ⟨rfl, rfl, rfl⟩ := RetestBegin.started.inj h
      refine ⟨lookup_removeKey_self _ _, ?_, rfl, ?_⟩
      · rcases hinv server hmem' with ⟨_, he⟩ | ⟨hv', _⟩
        · simpa using he
        · rw [hv] at hv'
          simp at hv'
      · intro t ht
        exact ⟨lookup_removeKey_other _ _ _ (Ne.symm ht), rfl⟩
    | none =>
      rw [hv] at h
      cases he : cache.errors.lookup server with
      | some pe₀ =>
        rw [he] at h
        obtain ⟨rfl, rfl, rfl⟩ := RetestBegin.started.inj h
        refine ⟨hv, lookup_removeKey_self _ _, rfl, ?_⟩
        intro t ht
        exact ⟨rfl, lookup_removeKey_other _ _ _ (Ne.symm ht)⟩
      | none =>
        rw [he] at h
        simp at h

/-- C6: initial population establishes the exactly-one invariant;
a completed re-probe preserves it (and leaves `members` unchanged);
a re-probe of a non-member is rejected with the batch unchanged;
a re-probe arriving while the server is absent from both maps (a
re-probe already in flight) is rejected with the batch unchanged;
and between pop and store the re-probed server is in neither map while
all other servers keep their entries. -/
theorem claim_c6 :
    (∀ (servers : List (String × List String)) (probe : String → ProbeOutcome)
        (order : List String), order.Perm (servers.map Prod.fst) →
        ExactlyOne (test_all servers probe order)) ∧
    (∀ (cache : Results) (server : String) (probe : ProbeOutcome)
        (cache'' : Results) (pub : Bool), ExactlyOne cache →
        retest cache server probe = .completed cache'' pub →
        ExactlyOne cache'' ∧ cache''.servers = cache.servers) ∧
    (∀ (cache : Results) (server : String) (probe : ProbeOutcome),
        (cache.servers.lookup server).isSome = false →
        retest cache server probe = .notMember cache) ∧
    (∀ (cache : Results) (server : String) (probe : ProbeOutcome),
        (cache.servers.lookup server).isSome →
        cache.versions.lookup server = none →
        cache.errors.lookup server = none →
        retest cache server probe = .inFlight cache) ∧
    (∀ (cache : Results) (server : String) (cache' : Results)
        (pv : Option ServerInfo) (pe : Option String), ExactlyOne cache →
        retestBegin cache server = .started cache' pv pe →
        cache'.versions.lookup server = none ∧
        cache'.errors.lookup server = none ∧
        cache'.servers = cache.servers ∧
        (∀ t, t ≠ server →
          cache'.versions.lookup t = cache.versions.lookup t ∧
          cache'.errors.lookup t = cache.errors.lookup t)) := by
  refine ⟨?_, ?_, ?_, ?_, ?_⟩
  · -- initial population
    intro servers probe order hperm s hs
    have hsmem : s ∈ servers.map Prod.fst := lookup_isSome_mem servers s hs
    have hmem : s ∈ order := hperm.mem_iff.2 hsmem
    unfold test_all
    simp only
    rw [lookup_filterMap, lookup_filterMap]
    simp only [if_pos hmem]
    cases ho : probe s <;> simp [outcomeVersion, outcomeError]
  · -- re-probe preserves the invariant
    intro cache server probe cache'' pub hinv hret
    unfold retest at hret
    cases hb : retestBegin cache server <;> rw [hb] at hret
    · simp at hret
    · simp at hret
    · case started c₁ pv pe =>
      simp only at hret
      obtain ⟨hc, _⟩ := RetestOutcome.completed.inj hret
      obtain ⟨hvn, hen, hsrv, hother⟩ :=
        retestBegin_started cache server c₁ pv pe hinv hb
      subst hc
      constructor
      · intro s hs
        by_cases hss : s = server
        · subst hss
          cases probe <;>
            simp only [retestFinish] <;>
            simp [lookup_setKey_self_absent _ _ _ hvn,
              lookup_setKey_self_absent _ _ _ hen, hvn, hen]
        · have hs' : (cache.servers.lookup s).isSome = true := by
            revert hs
            cases probe <;> simp [retestFinish, hsrv]
          have hv₁ := (hother s hss).1
          have he₁ := (hother s hss).2
          rcases hinv s hs' with ⟨h1, h2⟩ | ⟨h1, h2⟩
          · left
            cases probe <;>
              simp [retestFinish,
                lookup_setKey_other_absent _ _ _ _ hvn hss,
                lookup_setKey_other_absent _ _ _ _ hen hss,
                hv₁, he₁, h1, h2]
          · right
            cases probe <;>
              simp [retestFinish,
                lookup_setKey_other_absent _ _ _ _ hvn hss,
                lookup_setKey_other_absent _ _ _ _ hen hss,
                hv₁, he₁, h1, h2]
      · cases probe <;> simp [retestFinish, hsrv]
  · -- non-member rejected, batch unchanged
    intro cache server probe h
    unfold retest retestBegin
    rw [if_pos (by simpa using h)]
  · -- mid-flight duplicate rejected, batch unchanged
    intro cache server probe hmem hv he
    unfold retest retestBegin
    rw [if_neg (by simp [hmem]), hv, he]
  · -- the in-flight window
    intro cache server cache' pv pe hinv hb
    exact retestBegin_started cache server cache' pv pe hinv hb

/-- Witness for C6: a concrete mid-flight duplicate re-probe is
rejected without modifying the batch, and a completed re-probe on a
one-member batch preserves the invariant. -/
theorem claim_c6_witness :
    retest ⟨[("a.com", ["u1"])], [], []⟩ "a.com" .timedOut =
      .inFlight ⟨[("a.com", ["u1"])], [], []⟩ ∧
    retest ⟨[("b.com", ["u2"])], [], [("b.com", "unreachable")]⟩ "c.com"
        .timedOut =
      .notMember ⟨[("b.com", ["u2"])], [], [("b.com", "unreachable")]⟩ := by
  constructor
  · exact (claim_c6.2.2.2.1) ⟨[("a.com", ["u1"])], [], []⟩ "a.com" .timedOut
      (by decide) rfl rfl
  · exact (claim_c6.2.2.1) ⟨[("b.com", ["u2"])], [], [("b.com", "unreachable")]⟩
      "c.com" .timedOut (by decide)

/-! ## Claim C5: republish exactly on outcome change -/

/-- C5: re-probing a member whose new outcome equals its previous one
(same version on success, same error text on failure) does not republish
the batch summary; any differing outcome (different error text,
different version, or a success/failure transition) republishes it (in
the source, in place and under `cache.lock`). -/
theorem claim_c5 :
    ∀ (cache : Results) (server : String),
      (∀ (i prev : ServerInfo), i.eqB prev = true →
        (retestFinish cache server (.success i) (some prev) none).2 = false) ∧
      (∀ (probe : ProbeOutcome) (e : String), outcomeError probe = some e →
        (retestFinish cache server probe none (some e)).2 = false) ∧
      (∀ (i prev : ServerInfo), i.eqB prev = false →
        (retestFinish cache server (.success i) (some prev) none).2 = true) ∧
      (∀ (probe : ProbeOutcome) (e e' : String), outcomeError probe = some e →
        e ≠ e' →
        (retestFinish cache server probe none (some e')).2 = true) ∧
      (∀ (probe : ProbeOutcome) (e : String) (prev : ServerInfo),
        outcomeError probe = some e →
        (retestFinish cache server probe (some prev) none).2 = true) ∧
      (∀ (i : ServerInfo) (e : String),
        (retestFinish cache server (.success i) none (some e)).2 = true) := by
  intro cache server
  refine ⟨?_, ?_, ?_, ?_, ?_, ?_⟩
  · intro i prev hip
    simp [retestFinish, outcomeError, outcomeVersion, optInfoEq, hip]
  · intro probe e he
    cases probe <;> simp_all [retestFinish, outcomeError, outcomeVersion, optInfoEq]
  · intro i prev hip
    simp [retestFinish, outcomeError, outcomeVersion, optInfoEq, hip]
  · intro probe e e' he hne
    cases probe <;>
      simp_all [retestFinish, outcomeError, outcomeVersion, optInfoEq]
  · intro probe e prev he
    cases probe <;>
      simp_all [retestFinish, outcomeError, outcomeVersion, optInfoEq]
  · intro i e
    simp [retestFinish, outcomeError, outcomeVersion, optInfoEq]

/-- Witness for C5: same Synapse version re-probed — no republish; an
error-text change — republish. -/
theorem claim_c5_witness :
    (retestFinish ⟨[("a.com", ["u1"])], [], []⟩ "a.com"
        (.success ⟨"Synapse", .py ⟨[1, 60, 0], none⟩⟩)
        (some ⟨"Synapse", .py ⟨[1, 60, 0], none⟩⟩) none).2 = false ∧
    (retestFinish ⟨[("a.com", ["u1"])], [], []⟩ "a.com"
        (.testError "unreachable") none (some "test timed out")).2 = true := by
  constructor
  · exact (claim_c5 ⟨[("a.com", ["u1"])], [], []⟩ "a.com").1
      ⟨"Synapse", .py ⟨[1, 60, 0], none⟩⟩ ⟨"Synapse", .py ⟨[1, 60, 0], none⟩⟩
      (by decide)
  · exact (claim_c5 ⟨[("a.com", ["u1"])], [], []⟩ "a.com").2.2.2.1
      (.testError "unreachable") "unreachable" "test timed out" rfl (by decide)

/-! ## Probe responses and error classification (`rsvc.py` lines 233-357)

The federation tester's JSON response, restricted to the fields the
plugin reads.  A JSON key that may be absent is an `Option`; the check
booleans default to falsy when absent, so `Checks` carries plain `Bool`
fields and `data.get("Checks") or {}` is `Option Checks` with `none`
meaning all-falsy. -/

structure Checks where
  matchingServerName : Bool
  validCertificates : Bool
  allChecksOK : Bool
  deriving DecidableEq

structure KeysBlock where
  server_name : Option String
  deriving DecidableEq

structure Report where
  checks : Option Checks
  keys : Option KeysBlock
  deriving DecidableEq

structure VersionBlock where
  name : Option String
  version : Option String
  deriving DecidableEq

/-- The probe response: `FederationOK`, `ConnectionErrors` (addr →
reason, the reason itself unread), `ConnectionReports` (addr → report),
and the optional `Version` object. -/
structure ProbeResponse where
  federationOK : Bool
  connectionErrors : List (String × String)
  connectionReports : List (String × Report)
  versionBlock : Option VersionBlock
  deriving DecidableEq

/-- Address-family classification by lexical shape (`rsvc.py` line 246):
bracketed or more than one colon means IPv6. -/
def isIPv6 (addr : String) : Bool :=
  (addr.data.head? == some '[') || decide (addr.data.count ':' > 1)

/-- Each `ConnectionErrors` entry bumps its family's failure count. -/
def ipv4Failures (r : ProbeResponse) : Nat :=
  (r.connectionErrors.filter fun p => !isIPv6 p.1).length

def ipv6Failures (r : ProbeResponse) : Nat :=
  (r.connectionErrors.filter fun p => isIPv6 p.1).length

/-- Each `ConnectionReports` entry bumps its family's connection count. -/
def ipv4Connections (r : ProbeResponse) : Nat :=
  (r.connectionReports.filter fun p => !isIPv6 p.1).length

def ipv6Connections (r : ProbeResponse) : Nat :=
  (r.connectionReports.filter fun p => isIPv6 p.1).length

def checksOf (rep : Report) : Checks := rep.checks.getD ⟨false, false, false⟩

/-- `(data.get("Keys") or {}).get("server_name", "undefined")`. -/
def gotServer (rep : Report) : String :=
  (rep.keys.bind fun k => k.server_name).getD "undefined"

/-- The per-report check-failure classification, in source priority
order: name mismatch, then invalid certificates, then a generic check
failure; `none` when all checks pass. -/
def reportError (server : String) (rep : Report) : Option String :=
  let checks := checksOf rep
  if !checks.matchingServerName then
    some ("mismatching server name, tested: " ++ server ++ ", got: " ++
      gotServer rep)
  else if !checks.validCertificates then some "invalid TLS certificates"
  else if !checks.allChecksOK then some "some checks failed"
  else none

def ipv4Successes (server : String) (r : ProbeResponse) : Nat :=
  (r.connectionReports.filter
    fun p => !isIPv6 p.1 && (reportError server p.2).isNone).length

def ipv6Successes (server : String) (r : ProbeResponse) : Nat :=
  (r.connectionReports.filter
    fun p => isIPv6 p.1 && (reportError server p.2).isNone).length

/-- `failed_addresses`: every failing report counts, including
duplicate reasons. -/
def failedAddresses (server : String) (r : ProbeResponse) : Nat :=
  (r.connectionReports.filter fun p => (reportError server p.2).isSome).length

/-- The `errors`/`errors_with_addr` accumulation: one `(addr, reason)`
pair per *distinct* reason, first occurrence wins. -/
def errorsWithAddr (server : String) (r : ProbeResponse) :
    List (String × String) :=
  (r.connectionReports.foldl
    (fun (acc : List String × List (String × String)) p =>
      match reportError server p.2 with
      | none => acc
      | some e =>
        if acc.1.contains e then acc else (acc.1 ++ [e], acc.2 ++ [(p.1, e)]))
    ([], [])).2

def totalAddrs (r : ProbeResponse) : Nat :=
  ipv4Failures r + ipv4Connections r + ipv6Failures r + ipv6Connections r

/-- The reachability messages (`rsvc.py` lines 282-301). -/
def reachMsgs (r : ProbeResponse) : List String :=
  let totalV4 := ipv4Failures r + ipv4Connections r
  let totalV6 := ipv6Failures r + ipv6Connections r
  if ipv4Failures r + ipv6Failures r = totalV4 + totalV6 then
    if totalV4 + totalV6 = 1 then ["Server couldn't be reached"]
    else ["Server couldn't be reached on any address"]
  else
    (if ipv4Failures r ≠ 0 then
      [(if totalV4 > 1 then
          toString (ipv4Failures r) ++ "/" ++ toString totalV4 ++
            " IPv4 addresses"
        else "IPv4 address") ++ " couldn't be reached"]
     else []) ++
    (if ipv6Failures r ≠ 0 then
      [(if totalV6 > 1 then
          toString (ipv6Failures r) ++ "/" ++ toString totalV6 ++
            " IPv6 addresses"
        else "IPv6 address") ++ " couldn't be reached"]
     else [])

/-- The check-failure message (`rsvc.py` lines 302-311). -/
def checkFailMsgs (server : String) (r : ProbeResponse) : List String :=
  let ewa := errorsWithAddr server r
  match ewa with
  | [] => []
  | [(_, e)] =>
    [toString (failedAddresses server r) ++ "/" ++ toString (totalAddrs r) ++
      " address" ++ (if failedAddresses server r > 1 then "es" else "") ++
      " failed the test: " ++ e]
  | _ =>
    [toString (failedAddresses server r) ++ "/" ++ toString (totalAddrs r) ++
      " address" ++ (if failedAddresses server r > 1 then "es" else "") ++
      " failed the test: " ++
      joinSep ", " (ewa.map fun p => p.1 ++ ": " ++ p.2)]

def parseErrorMsgs (server : String) (r : ProbeResponse) : List String :=
  reachMsgs r ++ checkFailMsgs server r

/-- The parenthesised partial-success suffix (`rsvc.py` lines 312-328). -/
def parseErrorSuffix (server : String) (r : ProbeResponse) : String :=
  let totalV4 := ipv4Failures r + ipv4Connections r
  let totalV6 := ipv6Failures r + ipv6Connections r
  let s4 := ipv4Successes server r
  let s6 := ipv6Successes server r
  let suffix :=
    if s4 ≠ 0 then
      if totalV4 = 1 then "IPv4 is OK"
      else toString s4 ++ "/" ++ toString totalV4 ++ " IPv4 addresses are OK"
    else ""
  let suffix :=
    if s6 ≠ 0 then
      let msg :=
        if totalV6 = 1 then "IPv6 is OK"
        else toString s6 ++ "/" ++ toString totalV6 ++ " IPv6 addresses are OK"
      if suffix ≠ "" then suffix ++ " and " ++ msg else msg
    else suffix
  if suffix ≠ "" then " (" ++ suffix ++ ")" else ""

/-- `rsvc.py` lines 233-336, `_parse_error`: assemble the message list,
join it, or fall back to the addressless branches. -/
def parse_error (server : String) (r : ProbeResponse) : String :=
  let msgs := parseErrorMsgs server r
  let suffix := parseErrorSuffix server r
  match msgs with
  | [] =>
    if totalAddrs r = 0 then "No server addresses found"
    else "federation not OK (unknown error)"
  | [m] => m ++ suffix
  | _ => joinSep ", " msgs.dropLast ++ " and " ++ msgs.getLastD "" ++ suffix

/-- What one `_test` call does, seen from its caller: return a parsed
`ServerInfo`, raise a `TestError` with a message, or let some other
exception escape. -/
inductive TestResult where
  | info (i : ServerInfo)
  | err (msg : String)
  | exn
  deriving DecidableEq

/-- `rsvc.py` lines 338-357, `_test` after the HTTP fetch: on
`FederationOK: false` classify the failure (appending any reported
name/version pair when both are non-empty); on success require the
`Version` object and its `name` key, defaulting a missing `version`
string to `"unknown version"`.  `.exn` models an exception escaping
`_test` other than `TestError` (e.g. a version parse failure), which
callers downgrade to "internal plugin error". -/
def testServer (server : String) (r : ProbeResponse) : TestResult :=
  if !r.federationOK then
    let errMsg := parse_error server r
    let name := (r.versionBlock.bind fun vb => vb.name).getD ""
    let ver := (r.versionBlock.bind fun vb => vb.version).getD ""
    if name ≠ "" ∧ ver ≠ "" then
      match ServerInfo.parse name ver with
      | some si => .err (errMsg ++ " // " ++ si.str)
      | none => .exn
    else .err errMsg
  else
    match r.versionBlock with
    | none => .err "server not responding to version requests"
    | some vb =>
      match vb.name with
      | none => .err "server not responding to version requests"
      | some name =>
        match ServerInfo.parse name (vb.version.getD "unknown version") with
        | some si => .info si
        | none => .exn

theorem str_append_empty (s : String) : s ++ "" = s := by
  cases s with
  | mk l =>
    show String.mk (l ++ []) = String.mk l
    rw [List.append_nil]

/-! ## Claim C10: the addressless classification -/

/-- C10: a not-OK response with no connection errors and no connection
reports (zero addresses) classifies as "Server couldn't be reached on
any address"; and the "No server addresses found" branch — which needs
an empty message list *and* zero addresses — is unreachable, because
zero addresses always produce a reachability message. -/
theorem claim_c10 :
    (∀ (server : String) (r : ProbeResponse), r.federationOK = false →
      r.connectionErrors = [] → r.connectionReports = [] →
      parse_error server r = "Server couldn't be reached on any address") ∧
    (∀ (server : String) (r : ProbeResponse),
      ¬(parseErrorMsgs server r = [] ∧ totalAddrs r = 0)) := by
  constructor
  · intro server r hfed hce hcr
    have h1 : ipv4Failures r = 0 := by simp [ipv4Failures, hce]
    have h2 : ipv6Failures r = 0 := by simp [ipv6Failures, hce]
    have h3 : ipv4Connections r = 0 := by simp [ipv4Connections, hcr]
    have h4 : ipv6Connections r = 0 := by simp [ipv6Connections, hcr]
    have hs4 : ipv4Successes server r = 0 := by simp [ipv4Successes, hcr]
    have hs6 : ipv6Successes server r = 0 := by simp [ipv6Successes, hcr]
    have hewa : errorsWithAddr server r = [] := by simp [errorsWithAddr, hcr]
    unfold parse_error parseErrorMsgs reachMsgs checkFailMsgs parseErrorSuffix
    simp [h1, h2, h3, h4, hs4, hs6, hewa, str_append_empty]
  · rintro server r ⟨hmsgs, htot⟩
    unfold totalAddrs at htot
    have h1 : ipv4Failures r = 0 := by omega
    have h2 : ipv4Connections r = 0 := by omega
    have h3 : ipv6Failures r = 0 := by omega
    have h4 : ipv6Connections r = 0 := by omega
    unfold parseErrorMsgs reachMsgs at hmsgs
    simp [h1, h2, h3, h4] at hmsgs

/-- Witness for C10: the concrete empty-response classification. -/
theorem claim_c10_witness :
    parse_error "x.org" ⟨false, [], [], none⟩ =
      "Server couldn't be reached on any address" ∧
    ¬(parseErrorMsgs "x.org" ⟨false, [], [], none⟩ = [] ∧
      totalAddrs ⟨false, [], [], none⟩ = 0) :=
  ⟨claim_c10.1 "x.org" ⟨false, [], [], none⟩ rfl rfl rfl,
    claim_c10.2 "x.org" ⟨false, [], [], none⟩⟩

/-! ## Claim C4: the success path's version requirements -/

/-- C4 counterexample: with overall-OK true and a `Version` object that
names the software but carries *no* version string, `_test` succeeds
(with the `"unknown version"` default) instead of raising the
"not responding to version info" failure the claim requires. -/
theorem claim_c4_counterexample :
    testServer "example.com" ⟨true, [], [], some ⟨some "foosoft", none⟩⟩ =
      .info ⟨"foosoft", .str "unknown version"⟩ ∧
    testServer "example.com" ⟨true, [], [], some ⟨some "foosoft", none⟩⟩ ≠
      .err "server not responding to version requests" := by
  constructor <;> decide

/-- C4 (amended): with overall-OK true, the probe raises the
not-responding failure exactly when the `Version` object or its `name`
key is absent; an absent version *string* does not fail — it is
defaulted to `"unknown version"` and the probe behaves as if that
string had been reported (succeeding for unrecognized software); any
success implies the response named the software. -/
theorem claim_c4_amended :
    ∀ (server : String) (r : ProbeResponse), r.federationOK = true →
      ((r.versionBlock = none ∨
          (∃ vb, r.versionBlock = some vb ∧ vb.name = none)) →
        testServer server r = .err "server not responding to version requests") ∧
      (∀ vb name, r.versionBlock = some vb → vb.name = some name →
        vb.version = none →
        testServer server r =
          testServer server
            { r with versionBlock := some ⟨some name, some "unknown version"⟩ }) ∧
      (∀ si, testServer server r = .info si →
        ∃ vb name, r.versionBlock = some vb ∧ vb.name = some name) := by
  intro server r hfed
  refine ⟨?_, ?_, ?_⟩
  · rintro (hnone | ⟨vb, hvb, hname⟩)
    · simp [testServer, hfed, hnone]
    · simp [testServer, hfed, hvb, hname]
  · intro vb name hvb hname hver
    simp [testServer, hfed, hvb, hname, hver]
  · intro si hsi
    unfold testServer at hsi
    rw [hfed] at hsi
    simp only [Bool.not_true, Bool.false_eq_true, if_false] at hsi
    cases hvb : r.versionBlock with
    | none =>
      rw [hvb] at hsi
      simp at hsi
    | some vb =>
      rw [hvb] at hsi
      cases hname : vb.name with
      | none => simp [hname] at hsi
      | some name => exact ⟨vb, name, rfl, hname⟩

/-- Witness for C4 (amended): a missing `Version` object raises the
not-responding failure. -/
theorem claim_c4_amended_witness :
    testServer "x.org" ⟨true, [], [], none⟩ =
      .err "server not responding to version requests" :=
  (claim_c4_amended "x.org" ⟨true, [], [], none⟩ rfl).1 (Or.inl rfl)

/-! ## Version comparison laws transported to `VersionIdentifier`

Needed for the aggregation-ordering claim: within a kind the three-way
comparison is lawful; across kinds it is undefined (`none`). -/

theorem versionCompare_swap {a b : VersionIdentifier} {o : Ordering}
    (h : versionCompare a b = some o) : versionCompare b a = some o.swap := by
  cases a <;> cases b <;> simp [versionCompare] at h ⊢ <;> subst h
  · exact cmpStr_lawful.swap_eq _ _
  · exact pyCompare_lawful.swap_eq _ _
  · exact semCompare_lawful.swap_eq _ _

theorem versionCompare_lt_trans {a b c : VersionIdentifier}
    (hab : versionCompare a b = some .lt) (hbc : versionCompare b c = some .lt) :
    versionCompare a c = some .lt := by
  cases a <;> cases b <;> simp [versionCompare] at hab <;>
    cases c <;> simp [versionCompare] at hbc ⊢
  · exact cmpStr_lawful.lt_trans _ _ _ hab hbc
  · exact pyCompare_lawful.lt_trans _ _ _ hab hbc
  · exact semCompare_lawful.lt_trans _ _ _ hab hbc

theorem versionCompare_eq_left {a b : VersionIdentifier}
    (hab : versionCompare a b = some .eq) (c : VersionIdentifier) :
    versionCompare a c = versionCompare b c := by
  cases a <;> cases b <;> simp [versionCompare] at hab <;>
    cases c <;> simp [versionCompare]
  · exact cmpStr_lawful.eq_left _ _ _ hab
  · exact pyCompare_lawful.eq_left _ _ _ hab
  · exact semCompare_lawful.eq_left _ _ _ hab

theorem versionCompare_eq_right {a b : VersionIdentifier}
    (hab : versionCompare a b = some .eq) (c : VersionIdentifier) :
    versionCompare c a = versionCompare c b := by
  cases hca : versionCompare c a with
  | none =>
    cases hcb : versionCompare c b with
    | none => rfl
    | some o =>
      have h1 := versionCompare_swap hcb
      have h2 := versionCompare_eq_left ((versionCompare_swap hab : _)) c
      -- b ≍ a, so compare b c = compare a c; swap to relate c-side
      rw [h2] at h1
      have h3 := versionCompare_swap h1
      simp at h3
      rw [hca] at h3
      cases h3
  | some o =>
    cases hcb : versionCompare c b with
    | none =>
      have h1 := versionCompare_swap hca
      have h2 := versionCompare_eq_left hab c
      rw [h2] at h1
      have h3 := versionCompare_swap h1
      simp at h3
      rw [hcb] at h3
      cases h3
    | some o' =>
      have h1 := versionCompare_swap hca
      have h2 := versionCompare_eq_left hab c
      rw [h2] at h1
      have h3 := versionCompare_swap h1
      simp [Ordering.swap_swap] at h3
      rw [hcb] at h3
      exact h3.symm

/-! ## `ServerInfo.__lt__` as a strict order on parse-produced values -/

/-- Well-formedness: the version kind matches what `ServerInfo.parse`
produces for the software name (every value in a real batch satisfies
this, by `parse_familyKind`). -/
def WFInfo (info : ServerInfo) : Prop :=
  info.version.kind = familyKind info.software

instance (info : ServerInfo) : Decidable (WFInfo info) := by
  unfold WFInfo
  infer_instance

/-- `sorted` consumes `__lt__` as a plain boolean; `getD false` is only
reachable for the mixed-kind comparisons that raise `TypeError` in
Python, which the well-formedness hypotheses of the theorems below rule
out. -/
def infoLtB (a b : ServerInfo) : Bool := (a.lt b).getD false

theorem wf_kind_eq {a b : ServerInfo} (ha : WFInfo a) (hb : WFInfo b)
    (h : a.software = b.software) : a.version.kind = b.version.kind := by
  unfold WFInfo at ha hb
  rw [ha, hb, h]

theorem infoLtB_same_compare {a b : ServerInfo} (hsw : a.software = b.software)
    {o : Ordering} (hco : versionCompare a.version b.version = some o) :
    infoLtB a b = (o == Ordering.lt) := by
  simp [infoLtB, ServerInfo.lt, hsw, versionLt, hco]

theorem infoLtB_diff {a b : ServerInfo} (hsw : ¬a.software = b.software) :
    infoLtB a b = decide (server_order a.software < server_order b.software) := by
  simp [infoLtB, ServerInfo.lt, hsw]

theorem eqB_software {a b : ServerInfo} (h : a.eqB b = true) :
    a.software = b.software := by
  simp [ServerInfo.eqB] at h
  exact h.1

theorem eqB_compare {a b : ServerInfo} (h : a.eqB b = true) :
    versionCompare a.version b.version = some .eq := by
  simp [ServerInfo.eqB] at h
  have h2 := h.2
  unfold versionEqB at h2
  cases hc : versionCompare a.version b.version with
  | none => rw [hc] at h2; simp at h2
  | some o =>
    rw [hc] at h2
    cases o <;> simp_all

theorem beq_lt_true {o : Ordering} (h : (o == Ordering.lt) = true) :
    o = Ordering.lt := by
  cases o
  · rfl
  · exact absurd h (by decide)
  · exact absurd h (by decide)

theorem eqB_refl (a : ServerInfo) : a.eqB a = true := by
  have hex : ∃ o, versionCompare a.version a.version = some o := by
    cases a.version <;> simp [versionCompare]
  obtain ⟨o, ho⟩ := hex
  have hsw := versionCompare_swap ho
  rw [ho] at hsw
  have hinj : o = o.swap := Option.some.inj hsw
  have hoeq : o = Ordering.eq := by
    cases o
    · exact absurd hinj (by decide)
    · rfl
    · exact absurd hinj (by decide)
  subst hoeq
  simp [ServerInfo.eqB, versionEqB, ho]

theorem eqB_symm {a b : ServerInfo} (h : a.eqB b = true) : b.eqB a = true := by
  have hsw := eqB_software h
  have hco := eqB_compare h
  have := versionCompare_swap hco
  simp [ServerInfo.eqB, versionEqB, hsw, this, Ordering.swap]

theorem eqB_trans {a b c : ServerInfo} (h1 : a.eqB b = true)
    (h2 : b.eqB c = true) : a.eqB c = true := by
  have hsw1 := eqB_software h1
  have hsw2 := eqB_software h2
  have hco1 := eqB_compare h1
  have hco2 := eqB_compare h2
  have := versionCompare_eq_left hco1 c.version
  simp [ServerInfo.eqB, versionEqB, hsw1.trans hsw2, this, hco2]

theorem infoLtB_asym {a b : ServerInfo} (ha : WFInfo a) (hb : WFInfo b)
    (h : infoLtB a b = true) : infoLtB b a = false := by
  by_cases hsw : a.software = b.software
  · have hk := wf_kind_eq ha hb hsw
    obtain ⟨o, ho⟩ := kind_compare _ _ hk
    rw [infoLtB_same_compare hsw ho] at h
    have ho' := versionCompare_swap ho
    rw [infoLtB_same_compare (Eq.symm hsw) ho']
    have hol : o = Ordering.lt := beq_lt_true h
    subst hol
    decide
  · rw [infoLtB_diff hsw] at h
    rw [infoLtB_diff (fun hh => hsw hh.symm)]
    simp at h ⊢
    omega

theorem infoLtB_trans {a b c : ServerInfo} (ha : WFInfo a) (hb : WFInfo b)
    (hc : WFInfo c) (h1 : infoLtB a b = true) (h2 : infoLtB b c = true) :
    infoLtB a c = true := by
  by_cases hab : a.software = b.software <;>
    by_cases hbc : b.software = c.software
  · have hac : a.software = c.software := hab.trans hbc
    obtain ⟨o1, ho1⟩ := kind_compare _ _ (wf_kind_eq ha hb hab)
    obtain ⟨o2, ho2⟩ := kind_compare _ _ (wf_kind_eq hb hc hbc)
    rw [infoLtB_same_compare hab ho1] at h1
    rw [infoLtB_same_compare hbc ho2] at h2
    have hl1 : o1 = Ordering.lt := beq_lt_true h1
    have hl2 : o2 = Ordering.lt := beq_lt_true h2
    subst hl1
    subst hl2
    rw [infoLtB_same_compare hac (versionCompare_lt_trans ho1 ho2)]
    rfl
  · have hac : ¬a.software = c.software := by
      rw [hab]; exact hbc
    rw [infoLtB_diff hbc] at h2
    rw [infoLtB_diff hac]
    have heq : server_order a.software = server_order b.software := by rw [hab]
    simp at h2 ⊢
    omega
  · have hac : ¬a.software = c.software := fun hh => hab (hh.trans hbc.symm)
    rw [infoLtB_diff hab] at h1
    rw [infoLtB_diff hac]
    have heq : server_order b.software = server_order c.software := by rw [hbc]
    simp at h1 ⊢
    omega
  · rw [infoLtB_diff hab] at h1
    rw [infoLtB_diff hbc] at h2
    by_cases hac : a.software = c.software
    · have heq : server_order a.software = server_order c.software := by rw [hac]
      simp at h1 h2
      omega
    · rw [infoLtB_diff hac]
      simp at h1 h2 ⊢
      omega

theorem infoLtB_congr_left {a b : ServerInfo} (c : ServerInfo)
    (h : a.eqB b = true) : infoLtB a c = infoLtB b c := by
  have hsw := eqB_software h
  have hco := eqB_compare h
  by_cases hac : a.software = c.software
  · have hbc : b.software = c.software := hsw ▸ hac
    unfold infoLtB ServerInfo.lt
    rw [if_pos hac, if_pos hbc]
    unfold versionLt
    rw [versionCompare_eq_left hco c.version]
  · have hbc : ¬b.software = c.software := by rw [← hsw]; exact hac
    rw [infoLtB_diff hac, infoLtB_diff hbc, hsw]

theorem infoLtB_congr_right {a b c : ServerInfo}
    (h : b.eqB c = true) : infoLtB a b = infoLtB a c := by
  have hsw := eqB_software h
  have hco := eqB_compare h
  by_cases hab : a.software = b.software
  · have hac : a.software = c.software := hab.trans hsw
    unfold infoLtB ServerInfo.lt
    rw [if_pos hab, if_pos hac]
    unfold versionLt
    rw [versionCompare_eq_right hco a.version]
  · have hac : ¬a.software = c.software := by rw [← hsw]; exact hab
    rw [infoLtB_diff hab, infoLtB_diff hac, hsw]

/-! ## Results aggregation (`rsvc.py` lines 385-394, `_aggregate_versions`) -/

/-- `results.servers[server]` (always present for batch-produced
results; an absent key would be a `KeyError`). -/
def usersOf (results : Results) (server : String) : List String :=
  (results.servers.lookup server).getD []

/-- One `by_version[info] = (count + 1, users + new)` step on the
insertion-ordered dict: an `==`-equal key updates in place (keeping the
originally stored key, as Python dicts do), a new key appends. -/
def updateGroup :
    List (ServerInfo × Nat × List String) → ServerInfo → List String →
      List (ServerInfo × Nat × List String)
  | [], info, users => [(info, 1, users)]
  | (k, n, us) :: tl, info, users =>
    if k.eqB info then (k, n + 1, us ++ users) :: tl
    else (k, n, us) :: updateGroup tl info users

/-- The grouping loop over `results.versions.items()`. -/
def aggregateGroups (results : Results) :
    List (ServerInfo × Nat × List String) :=
  results.versions.foldl (fun acc p => updateGroup acc p.2 (usersOf results p.1)) []

/-- Python `<` on `list[str]` (lexicographic). -/
def usersLt (a b : List String) : Bool :=
  lexCompare cmpStr a b == Ordering.lt

/-- Python `<` on the `(server_count, users)` tuples. -/
def countUsersLt (a b : Nat × List String) : Bool :=
  if a.1 = b.1 then usersLt a.2 b.2 else decide (a.1 < b.1)

/-- Python `<` on `by_version.items()` entries as used by `sorted`:
tuple comparison — the `ServerInfo` keys first (via its overridden
`__lt__`), the value tuples only between `==`-equal keys. -/
def itemLt (x y : ServerInfo × Nat × List String) : Bool :=
  if x.1.eqB y.1 then countUsersLt x.2 y.2 else infoLtB x.1 y.1

/-- One step of a stable descending insertion: `x` goes in front of the
first element strictly below it, behind everything else (so equal and
incomparable elements keep their original relative order, as Python's
stable `sorted(..., reverse=True)` does). -/
def insertDesc {α : Type _} (lt : α → α → Bool) (x : α) : List α → List α
  | [] => [x]
  | y :: ys => if lt y x then x :: y :: ys else y :: insertDesc lt x ys

/-- Model of `sorted(items, reverse=True)`: stable descending sort. -/
def sortRev {α : Type _} (lt : α → α → Bool) (l : List α) : List α :=
  l.foldl (fun acc x => insertDesc lt x acc) []

/-- `_aggregate_versions`: group by `==`-equal `ServerInfo`, then
`dict(sorted(by_version.items(), reverse=True))`. -/
def aggregate_versions (results : Results) :
    List (ServerInfo × Nat × List String) :=
  sortRev itemLt (aggregateGroups results)

theorem countUsersLt_asym {a b : Nat × List String}
    (h : countUsersLt a b = true) : countUsersLt b a = false := by
  unfold countUsersLt at *
  by_cases hn : a.1 = b.1
  · rw [if_pos hn] at h
    rw [if_pos hn.symm]
    unfold usersLt at *
    have hl := beq_lt_true h
    rw [(lexCompare_lawful cmpStr_lawful).swap_eq a.2 b.2, hl]
    decide
  · rw [if_neg hn] at h
    rw [if_neg (fun hh => hn hh.symm)]
    simp at h ⊢
    omega

theorem countUsersLt_trans {a b c : Nat × List String}
    (h1 : countUsersLt a b = true) (h2 : countUsersLt b c = true) :
    countUsersLt a c = true := by
  unfold countUsersLt at *
  by_cases hab : a.1 = b.1 <;> by_cases hbc : b.1 = c.1
  · rw [if_pos hab] at h1
    rw [if_pos hbc] at h2
    rw [if_pos (hab.trans hbc)]
    unfold usersLt at *
    rw [(lexCompare_lawful cmpStr_lawful).lt_trans a.2 b.2 c.2
      (beq_lt_true h1) (beq_lt_true h2)]
    rfl
  · rw [if_pos hab] at h1
    rw [if_neg hbc] at h2
    have hac : ¬a.1 = c.1 := by rw [hab]; exact hbc
    rw [if_neg hac]
    simp at h2 ⊢
    omega
  · rw [if_neg hab] at h1
    rw [if_pos hbc] at h2
    have hac : ¬a.1 = c.1 := by rw [← hbc]; exact hab
    rw [if_neg hac]
    simp at h1 ⊢
    omega
  · rw [if_neg hab] at h1
    rw [if_neg hbc] at h2
    simp at h1 h2
    have hac : ¬a.1 = c.1 := by omega
    rw [if_neg hac]
    simp
    omega

theorem itemLt_asym {x y : ServerInfo × Nat × List String}
    (hx : WFInfo x.1) (hy : WFInfo y.1) (h : itemLt x y = true) :
    itemLt y x = false := by
  unfold itemLt at *
  by_cases he : x.1.eqB y.1 = true
  · rw [if_pos he] at h
    rw [if_pos (eqB_symm he)]
    exact countUsersLt_asym h
  · rw [if_neg he] at h
    rw [if_neg (fun hh => he (eqB_symm hh))]
    exact infoLtB_asym hx hy h

theorem itemLt_trans {x y z : ServerInfo × Nat × List String}
    (hx : WFInfo x.1) (hy : WFInfo y.1) (hz : WFInfo z.1)
    (h1 : itemLt x y = true) (h2 : itemLt y z = true) : itemLt x z = true := by
  unfold itemLt at *
  by_cases hxy : x.1.eqB y.1 = true <;> by_cases hyz : y.1.eqB z.1 = true
  · rw [if_pos hxy] at h1
    rw [if_pos hyz] at h2
    rw [if_pos (eqB_trans hxy hyz)]
    exact countUsersLt_trans h1 h2
  · rw [if_pos hxy] at h1
    rw [if_neg hyz] at h2
    rw [if_neg (fun hh => hyz (eqB_trans (eqB_symm hxy) hh))]
    rw [infoLtB_congr_left z.1 hxy]
    exact h2
  · rw [if_neg hxy] at h1
    rw [if_pos hyz] at h2
    rw [if_neg (fun hh => hxy (eqB_trans hh (eqB_symm hyz)))]
    rw [← infoLtB_congr_right hyz]
    exact h1
  · rw [if_neg hxy] at h1
    rw [if_neg hyz] at h2
    by_cases hxz : x.1.eqB z.1 = true
    · exfalso
      rw [infoLtB_congr_left y.1 hxz] at h1
      have hzy := infoLtB_asym hy hz h2
      rw [hzy] at h1
      cases h1
    · rw [if_neg hxz]
      exact infoLtB_trans hx hy hz h1 h2

theorem insertDesc_mem {α : Type _} (lt : α → α → Bool) (x z : α) :
    ∀ l : List α, z ∈ insertDesc lt x l → z = x ∨ z ∈ l := by
  intro l
  induction l with
  | nil => simp [insertDesc]
  | cons y ys ih =>
    unfold insertDesc
    by_cases h : lt y x = true
    · rw [if_pos h]
      intro hz
      rcases List.mem_cons.1 hz with rfl | hz'
      · exact .inl rfl
      · exact .inr hz'
    · rw [if_neg h]
      intro hz
      rcases List.mem_cons.1 hz with rfl | hz'
      · exact .inr (List.mem_cons_self _ _)
      · rcases ih hz' with h2 | h2
        · exact .inl h2
        · exact .inr (List.mem_cons_of_mem _ h2)

theorem insertDesc_pairwise {α : Type _} (lt : α → α → Bool) (L : List α)
    (hasym : ∀ a ∈ L, ∀ b ∈ L, lt a b = true → lt b a = false)
    (htrans : ∀ a ∈ L, ∀ b ∈ L, ∀ c ∈ L,
      lt a b = true → lt b c = true → lt a c = true)
    (x : α) (hxL : x ∈ L) :
    ∀ l : List α, (∀ z ∈ l, z ∈ L) →
      l.Pairwise (fun a b => lt a b = false) →
      (insertDesc lt x l).Pairwise (fun a b => lt a b = false) := by
  intro l
  induction l with
  | nil =>
    intro _ _
    simp [insertDesc]
  | cons y ys ih =>
    intro hsub hpw
    rw [List.pairwise_cons] at hpw
    obtain ⟨hy, hpw'⟩ := hpw
    have hyL : y ∈ L := hsub y (List.mem_cons_self _ _)
    unfold insertDesc
    by_cases hlt : lt y x = true
    · rw [if_pos hlt]
      refine List.Pairwise.cons ?_ (List.Pairwise.cons hy hpw')
      intro z hz
      rcases List.mem_cons.1 hz with rfl | hz'
      · exact hasym _ hyL x hxL hlt
      · cases hbz : lt x z
        · rfl
        · have hzL : z ∈ L := hsub z (List.mem_cons_of_mem _ hz')
          have hyz := htrans y hyL x hxL z hzL hlt hbz
          rw [hy z hz'] at hyz
          cases hyz
    · rw [if_neg hlt]
      have hlt' : lt y x = false := by
        cases hb : lt y x
        · rfl
        · exact absurd hb hlt
      refine List.Pairwise.cons ?_ ?_
      · intro z hz
        rcases insertDesc_mem lt x z ys hz with rfl | hz'
        · exact hlt'
        · exact hy z hz'
      · exact ih (fun z hz => hsub z (List.mem_cons_of_mem _ hz)) hpw'

theorem sortRev_pairwise {α : Type _} (lt : α → α → Bool) (l : List α)
    (hasym : ∀ a ∈ l, ∀ b ∈ l, lt a b = true → lt b a = false)
    (htrans : ∀ a ∈ l, ∀ b ∈ l, ∀ c ∈ l,
      lt a b = true → lt b c = true → lt a c = true) :
    (sortRev lt l).Pairwise (fun a b => lt a b = false) := by
  unfold sortRev
  suffices h : ∀ (rest acc : List α), (∀ z ∈ rest, z ∈ l) →
      (∀ z ∈ acc, z ∈ l) → acc.Pairwise (fun a b => lt a b = false) →
      (rest.foldl (fun acc x => insertDesc lt x acc) acc).Pairwise
        (fun a b => lt a b = false) by
    exact h l [] (fun z hz => hz) (by simp) (by simp)
  intro rest
  induction rest with
  | nil =>
    intro acc _ _ hpw
    simpa using hpw
  | cons x xs ih =>
    intro acc hrest hacc hpw
    simp only [List.foldl_cons]
    have hxl : x ∈ l := hrest x (List.mem_cons_self _ _)
    refine ih (insertDesc lt x acc) (fun z hz => hrest z (List.mem_cons_of_mem _ hz))
      ?_ ?_
    · intro z hz
      rcases insertDesc_mem lt x z acc hz with rfl | hz'
      · exact hxl
      · exact hacc z hz'
    · exact insertDesc_pairwise lt l hasym htrans x hxl acc hacc hpw

theorem updateGroup_keys (acc : List (ServerInfo × Nat × List String))
    (info : ServerInfo) (users : List String) :
    ∀ z ∈ updateGroup acc info users, z.1 = info ∨ ∃ w ∈ acc, z.1 = w.1 := by
  induction acc with
  | nil =>
    intro z hz
    simp [updateGroup] at hz
    subst hz
    exact .inl rfl
  | cons p tl ih =>
    cases p with
    | mk k rest =>
      intro z hz
      unfold updateGroup at hz
      by_cases he : k.eqB info = true
      · rw [if_pos he] at hz
        rcases List.mem_cons.1 hz with rfl | hz'
        · exact .inr ⟨(k, rest), List.mem_cons_self _ _, rfl⟩
        · exact .inr ⟨z, List.mem_cons_of_mem _ hz', rfl⟩
      · rw [if_neg he] at hz
        rcases List.mem_cons.1 hz with rfl | hz'
        · exact .inr ⟨(k, rest), List.mem_cons_self _ _, rfl⟩
        · rcases ih z hz' with h2 | ⟨w, hw, hzw⟩
          · exact .inl h2
          · exact .inr ⟨w, List.mem_cons_of_mem _ hw, hzw⟩

theorem aggregateGroups_wf (results : Results)
    (hwf : ∀ p ∈ results.versions, WFInfo p.2) :
    ∀ z ∈ aggregateGroups results, WFInfo z.1 := by
  unfold aggregateGroups
  suffices h : ∀ (rest : List (String × ServerInfo))
      (acc : List (ServerInfo × Nat × List String)),
      (∀ p ∈ rest, WFInfo p.2) → (∀ z ∈ acc, WFInfo z.1) →
      ∀ z ∈ rest.foldl
        (fun acc p => updateGroup acc p.2 (usersOf results p.1)) acc,
        WFInfo z.1 by
    exact h results.versions [] hwf (by simp)
  intro rest
  induction rest with
  | nil =>
    intro acc _ hacc z hz
    exact hacc z (by simpa using hz)
  | cons p ps ih =>
    intro acc hr hacc z hz
    simp only [List.foldl_cons] at hz
    refine ih (updateGroup acc p.2 (usersOf results p.1))
      (fun q hq => hr q (List.mem_cons_of_mem _ hq)) ?_ z hz
    intro w hw
    rcases updateGroup_keys acc p.2 (usersOf results p.1) w hw with
      h1 | ⟨u, hu, hwu⟩
    · rw [WFInfo, h1]
      exact hr p (List.mem_cons_self _ _)
    · rw [WFInfo, hwu]
      exact hacc u hu

/-! ## Claim C7: purity and display ordering of the aggregation -/

/-- C7: `_aggregate_versions` is a pure function of the batch — the
same `Results` gives the identical grouped, counted, ordered output —
and that output is ordered descending under the item comparison that
Python's `sorted(..., reverse=True)` consumes: same-family entries by
the family-native version ordering, different-family entries by the
`server_order` display-priority table with unlisted families at
priority 0 (the `ServerInfo.__lt__` embedded in `itemLt`). -/
theorem claim_c7 :
    ∀ results : Results,
      (∀ p ∈ results.versions, WFInfo p.2) →
      aggregate_versions results = aggregate_versions results ∧
      (aggregate_versions results).Pairwise (fun x y => itemLt x y = false) := by
  intro results hwf
  refine ⟨rfl, ?_⟩
  have hG := aggregateGroups_wf results hwf
  unfold aggregate_versions
  apply sortRev_pairwise
  · intro a ha b hb hab
    exact itemLt_asym (hG a ha) (hG b hb) hab
  · intro a ha b hb c hc h1 h2
    exact itemLt_trans (hG a ha) (hG b hb) (hG c hc) h1 h2

/-- Witness for C7: a concrete three-server batch (two on the same
Synapse version, one Dendrite) aggregates to a descending-ordered
display list. -/
theorem claim_c7_witness :
    (aggregate_versions
        ⟨[("a.com", ["u1"]), ("b.com", ["u2"]), ("c.com", ["u3"])],
          [("a.com", ⟨"Synapse", .py ⟨[1, 60, 0], none⟩⟩),
            ("b.com", ⟨"Dendrite", .sem ⟨0, 9, 0, [], []⟩⟩),
            ("c.com", ⟨"Synapse", .py ⟨[1, 60, 0], none⟩⟩)],
          []⟩).Pairwise (fun x y => itemLt x y = false) :=
  (claim_c7
    ⟨[("a.com", ["u1"]), ("b.com", ["u2"]), ("c.com", ["u3"])],
      [("a.com", ⟨"Synapse", .py ⟨[1, 60, 0], none⟩⟩),
        ("b.com", ⟨"Dendrite", .sem ⟨0, 9, 0, [], []⟩⟩),
        ("c.com", ⟨"Synapse", .py ⟨[1, 60, 0], none⟩⟩)],
      []⟩ (by decide)).2

example :
    aggregate_versions
        ⟨[("a.com", ["u1"]), ("b.com", ["u2"]), ("c.com", ["u3"])],
          [("a.com", ⟨"Synapse", .py ⟨[1, 60, 0], none⟩⟩),
            ("b.com", ⟨"Dendrite", .sem ⟨0, 9, 0, [], []⟩⟩),
            ("c.com", ⟨"Synapse", .py ⟨[1, 60, 0], none⟩⟩)],
          []⟩ =
      [(⟨"Synapse", .py ⟨[1, 60, 0], none⟩⟩, 2, ["u1", "u3"]),
        (⟨"Dendrite", .sem ⟨0, 9, 0, [], []⟩⟩, 1, ["u2"])] := by decide

/-! ## The per-room in-flight marker (`rsvc.py` lines 425-439)

`servers`/`test_or_wait` run under asyncio's single-threaded cooperative
scheduler: code between `await`s is atomic.  We model one room's
requests as processes of a transition system.  A request that finds no
marker sets it and starts the batch in the same atomic step (the marker
assignment precedes `await task`, and the batch body only runs after
that suspension); `batchEnd` models `test_or_wait`'s `finally: del
tests_in_progress[room]`, which runs whether `_servers` returned or
raised.  A request that finds the marker either awaits the in-flight
task (`test_or_wait`, line 433) or replies "already in progress"
(`servers`, line 427) — `viaCmd` distinguishes the two entry points. -/

/-- Control point of one request coroutine. -/
inductive PC where
  | entry (viaCmd : Bool)
  | waiting
  | rejected
  | inBatch (steps : Nat)
  | done
  deriving DecidableEq

def isInBatch : PC → Bool
  | .inBatch _ => true
  | _ => false

/-- One room's state: the `tests_in_progress` marker and the request
coroutines. -/
structure Sys where
  marker : Bool
  procs : List PC
  deriving DecidableEq

/-- The atomic steps the scheduler can interleave. -/
inductive Step : Sys → Sys → Prop where
  | enterRun (s : Sys) (i : Nat) (b : Bool) (n : Nat)
      (hi : i < s.procs.length) (hpc : s.procs[i] = PC.entry b)
      (hm : s.marker = false) :
      Step s ⟨true, s.procs.set i (.inBatch n)⟩
  | enterWait (s : Sys) (i : Nat) (hi : i < s.procs.length)
      (hpc : s.procs[i] = PC.entry false) (hm : s.marker = true) :
      Step s ⟨s.marker, s.procs.set i .waiting⟩
  | enterRej (s : Sys) (i : Nat) (hi : i < s.procs.length)
      (hpc : s.procs[i] = PC.entry true) (hm : s.marker = true) :
      Step s ⟨s.marker, s.procs.set i .rejected⟩
  | batchStep (s : Sys) (i : Nat) (n : Nat) (hi : i < s.procs.length)
      (hpc : s.procs[i] = PC.inBatch (n + 1)) :
      Step s ⟨s.marker, s.procs.set i (.inBatch n)⟩
  | batchEnd (s : Sys) (i : Nat) (hi : i < s.procs.length)
      (hpc : s.procs[i] = PC.inBatch 0) :
      Step s ⟨false, s.procs.set i .done⟩
  | wake (s : Sys) (i : Nat) (hi : i < s.procs.length)
      (hpc : s.procs[i] = PC.waiting) (hm : s.marker = false) :
      Step s ⟨s.marker, s.procs.set i .done⟩

def Reachable : Sys → Sys → Prop := Relation.ReflTransGen Step

/-- A fresh room: no marker, every request yet to run. -/
def Init (s : Sys) : Prop :=
  s.marker = false ∧ ∀ pc ∈ s.procs, ∃ b, pc = PC.entry b

/-- At most one batch runs at any time. -/
def AtMostOneBatch (s : Sys) : Prop :=
  ∀ i j (hi : i < s.procs.length) (hj : j < s.procs.length),
    isInBatch s.procs[i] = true → isInBatch s.procs[j] = true → i = j

/-- The marker is set exactly while a batch runs. -/
def MarkerTracks (s : Sys) : Prop :=
  s.marker = true ↔ ∃ i, ∃ _ : i < s.procs.length, isInBatch s.procs[i] = true

def Inv (s : Sys) : Prop := AtMostOneBatch s ∧ MarkerTracks s

theorem init_inv {s : Sys} (h : Init s) : Inv s := by
  obtain ⟨hm, hpc⟩ := h
  have hnone : ∀ i, ∀ _ : i < s.procs.length, isInBatch s.procs[i] = false := by
    intro i hi
    obtain ⟨b, hb⟩ := hpc s.procs[i] (List.getElem_mem hi)
    rw [hb]
    rfl
  constructor
  · intro i j hi hj h1 _
    rw [hnone i hi] at h1
    cases h1
  · constructor
    · intro h1
      rw [hm] at h1
      cases h1
    · rintro ⟨i, hi, h1⟩
      rw [hnone i hi] at h1
      cases h1

theorem step_inv {s s' : Sys} (hinv : Inv s) (hstep : Step s s') : Inv s' := by
  obtain ⟨hone, hmark⟩ := hinv
  cases hstep with
  | enterRun i b n hi hpc hm =>
    have hnone : ∀ j, ∀ _ : j < s.procs.length, isInBatch s.procs[j] = false := by
      intro j hj
      cases hb : isInBatch s.procs[j]
      · rfl
      · exact absurd (hmark.2 ⟨j, hj, hb⟩) (by rw [hm]; decide)
    constructor
    · intro j k hj hk h1 h2
      rw [List.length_set] at hj hk
      rw [List.getElem_set] at h1 h2
      by_cases hji : i = j <;> by_cases hki : i = k
      · omega
      · rw [if_neg hki] at h2
        rw [hnone k hk] at h2
        cases h2
      · rw [if_neg hji] at h1
        rw [hnone j hj] at h1
        cases h1
      · rw [if_neg hji] at h1
        rw [hnone j hj] at h1
        cases h1
    · constructor
      · intro _
        refine ⟨i, ?_, ?_⟩
        · rw [List.length_set]
          exact hi
        · rw [List.getElem_set, if_pos rfl]
          rfl
      · intro _
        rfl
  | enterWait i hi hpc hm =>
    have hni : isInBatch s.procs[i] = false := by rw [hpc]; rfl
    constructor
    · intro j k hj hk h1 h2
      rw [List.length_set] at hj hk
      rw [List.getElem_set] at h1 h2
      by_cases hji : i = j
      · rw [if_pos hji] at h1
        cases h1
      · by_cases hki : i = k
        · rw [if_pos hki] at h2
          cases h2
        · rw [if_neg hji] at h1
          rw [if_neg hki] at h2
          exact hone j k hj hk h1 h2
    · constructor
      · intro h1
        obtain ⟨j, hj, hbj⟩ := hmark.1 hm
        have hji : ¬i = j := by
          intro hh
          subst hh
          rw [hni] at hbj
          cases hbj
        refine ⟨j, ?_, ?_⟩
        · rw [List.length_set]
          exact hj
        · rw [List.getElem_set, if_neg hji]
          exact hbj
      · intro _
        exact hm
  | enterRej i hi hpc hm =>
    have hni : isInBatch s.procs[i] = false := by rw [hpc]; rfl
    constructor
    · intro j k hj hk h1 h2
      rw [List.length_set] at hj hk
      rw [List.getElem_set] at h1 h2
      by_cases hji : i = j
      · rw [if_pos hji] at h1
        cases h1
      · by_cases hki : i = k
        · rw [if_pos hki] at h2
          cases h2
        · rw [if_neg hji] at h1
          rw [if_neg hki] at h2
          exact hone j k hj hk h1 h2
    · constructor
      · intro h1
        obtain ⟨j, hj, hbj⟩ := hmark.1 hm
        have hji : ¬i = j := by
          intro hh
          subst hh
          rw [hni] at hbj
          cases hbj
        refine ⟨j, ?_, ?_⟩
        · rw [List.length_set]
          exact hj
        · rw [List.getElem_set, if_neg hji]
          exact hbj
      · intro _
        exact hm
  | batchStep i n hi hpc =>
    have hbi : isInBatch s.procs[i] = true := by rw [hpc]; rfl
    constructor
    · intro j k hj hk h1 h2
      rw [List.length_set] at hj hk
      rw [List.getElem_set] at h1 h2
      by_cases hji : i = j <;> by_cases hki : i = k
      · omega
      · rw [if_neg hki] at h2
        have := hone i k hi hk hbi h2
        omega
      · rw [if_neg hji] at h1
        have := hone j i hj hi h1 hbi
        omega
      · rw [if_neg hji] at h1
        rw [if_neg hki] at h2
        exact hone j k hj hk h1 h2
    · constructor
      · intro _
        refine ⟨i, ?_, ?_⟩
        · rw [List.length_set]
          exact hi
        · rw [List.getElem_set, if_pos rfl]
          rfl
      · intro _
        exact hmark.2 ⟨i, hi, hbi⟩
  | batchEnd i hi hpc =>
    have hbi : isInBatch s.procs[i] = true := by rw [hpc]; rfl
    constructor
    · intro j k hj hk h1 h2
      rw [List.length_set] at hj hk
      rw [List.getElem_set] at h1 h2
      by_cases hji : i = j
      · rw [if_pos hji] at h1
        cases h1
      · by_cases hki : i = k
        · rw [if_pos hki] at h2
          cases h2
        · rw [if_neg hji] at h1
          rw [if_neg hki] at h2
          exact hone j k hj hk h1 h2
    · constructor
      · intro h1
        cases h1
      · rintro ⟨j, hj, hbj⟩
        rw [List.length_set] at hj
        rw [List.getElem_set] at hbj
        by_cases hji : i = j
        · rw [if_pos hji] at hbj
          cases hbj
        · rw [if_neg hji] at hbj
          have := hone j i hj hi hbj hbi
          omega
  | wake i hi hpc hm =>
    have hni : isInBatch s.procs[i] = false := by rw [hpc]; rfl
    constructor
    · intro j k hj hk h1 h2
      rw [List.length_set] at hj hk
      rw [List.getElem_set] at h1 h2
      by_cases hji : i = j
      · rw [if_pos hji] at h1
        cases h1
      · by_cases hki : i = k
        · rw [if_pos hki] at h2
          cases h2
        · rw [if_neg hji] at h1
          rw [if_neg hki] at h2
          exact hone j k hj hk h1 h2
    · constructor
      · intro h1
        rw [hm] at h1
        cases h1
      · rintro ⟨j, hj, hbj⟩
        rw [List.length_set] at hj
        rw [List.getElem_set] at hbj
        by_cases hji : i = j
        · rw [if_pos hji] at hbj
          cases hbj
        · rw [if_neg hji] at hbj
          exact hmark.2 ⟨j, hj, hbj⟩

theorem reachable_inv {s₀ s : Sys} (h0 : Init s₀) (hr : Reachable s₀ s) :
    Inv s := by
  induction hr with
  | refl => exact init_inv h0
  | tail _ hstep ih => exact step_inv ih hstep

/-! ## Claim C8: the in-flight marker protocol -/

/-- C8: from any fresh room state, every reachable state has at most
one running batch, with the marker set exactly while one runs (so the
marker is set before any probe step of a batch executes, and a batch
only starts by setting it); a request that arrives while the marker is
set never starts a batch in its step — it either moves to awaiting the
in-flight batch or to the already-in-progress reply (or is not the
process scheduled); and the only step that clears a set marker is a
batch ending (`test_or_wait`'s `finally`, which runs on the normal and
the exception path alike). -/
theorem claim_c8 :
    (∀ s₀ s, Init s₀ → Reachable s₀ s → Inv s) ∧
    (∀ s₀ s, Init s₀ → Reachable s₀ s →
      ∀ i, ∀ hi : i < s.procs.length, isInBatch s.procs[i] = true →
        s.marker = true) ∧
    (∀ s s', Step s s' → s.marker = true →
      ∀ i, ∀ hi : i < s.procs.length, ∀ b, s.procs[i] = PC.entry b →
        ∀ hi' : i < s'.procs.length,
          s'.procs[i] = PC.entry b ∨ s'.procs[i] = PC.waiting ∨
            s'.procs[i] = PC.rejected) ∧
    (∀ s s', Step s s' → s.marker = true → s'.marker = false →
      ∃ i, ∃ hi : i < s.procs.length, s.procs[i] = PC.inBatch 0 ∧
        ∃ hi' : i < s'.procs.length, s'.procs[i] = PC.done) := by
  refine ⟨fun s₀ s h0 hr => reachable_inv h0 hr, ?_, ?_, ?_⟩
  · intro s₀ s h0 hr i hi hb
    exact (reachable_inv h0 hr).2.2 ⟨i, hi, hb⟩
  · intro s s' hstep hm i hi b hent hi'
    cases hstep with
    | enterRun j b' n hj hpc hm' =>
      rw [hm'] at hm
      cases hm
    | enterWait j hj hpc hm' =>
      simp only
      rw [List.getElem_set]
      by_cases hji : j = i
      · rw [if_pos hji]
        exact .inr (.inl rfl)
      · rw [if_neg hji]
        exact .inl hent
    | enterRej j hj hpc hm' =>
      simp only
      rw [List.getElem_set]
      by_cases hji : j = i
      · rw [if_pos hji]
        exact .inr (.inr rfl)
      · rw [if_neg hji]
        exact .inl hent
    | batchStep j n hj hpc =>
      simp only
      rw [List.getElem_set]
      by_cases hji : j = i
      · subst hji
        rw [hent] at hpc
        cases hpc
      · rw [if_neg hji]
        exact .inl hent
    | batchEnd j hj hpc =>
      simp only
      rw [List.getElem_set]
      by_cases hji : j = i
      · subst hji
        rw [hent] at hpc
        cases hpc
      · rw [if_neg hji]
        exact .inl hent
    | wake j hj hpc hm' =>
      simp only
      rw [List.getElem_set]
      by_cases hji : j = i
      · subst hji
        rw [hent] at hpc
        cases hpc
      · rw [if_neg hji]
        exact .inl hent
  · intro s s' hstep hm hm'
    cases hstep with
    | enterRun j b n hj hpc hmf => cases hm'
    | enterWait j hj hpc hmf =>
      simp only at hm'
      rw [hm] at hm'
      cases hm'
    | enterRej j hj hpc hmf =>
      simp only at hm'
      rw [hm] at hm'
      cases hm'
    | batchStep j n hj hpc =>
      simp only at hm'
      rw [hm] at hm'
      cases hm'
    | batchEnd j hj hpc =>
      refine ⟨j, hj, hpc, ?_, ?_⟩
      · simp only
        rw [List.length_set]
        exact hj
      · simp only
        rw [List.getElem_set, if_pos rfl]
    | wake j hj hpc hmf =>
      rw [hm] at hmf
      cases hmf

/-- Witness for C8: a two-request room where the first request has
started the batch satisfies the invariant, and its running batch implies
the marker is set. -/
theorem claim_c8_witness :
    Inv ⟨true, [PC.inBatch 2, PC.entry true]⟩ ∧
    Sys.marker ⟨true, [PC.inBatch 2, PC.entry true]⟩ = true := by
  have hinit : Init ⟨false, [PC.entry false, PC.entry true]⟩ := by
    refine ⟨rfl, ?_⟩
    intro pc hpc
    rcases (by simpa using hpc : pc = PC.entry false ∨ pc = PC.entry true) with
      rfl | rfl
    · exact ⟨false, rfl⟩
    · exact ⟨true, rfl⟩
  have hstep : Step ⟨false, [PC.entry false, PC.entry true]⟩
      ⟨true, [PC.inBatch 2, PC.entry true]⟩ :=
    Step.enterRun ⟨false, [PC.entry false, PC.entry true]⟩ 0 false 2
      (by decide) rfl rfl
  have hreach : Reachable ⟨false, [PC.entry false, PC.entry true]⟩
      ⟨true, [PC.inBatch 2, PC.entry true]⟩ :=
    Relation.ReflTransGen.single hstep
  exact ⟨claim_c8.1 _ _ hinit hreach,
    claim_c8.2.1 _ _ hinit hreach 0 (by decide) rfl⟩

end Rsvc
